import Mathlib

/-!
Verification of the doc-mcp core: a shallow embedding of the
Schema Normalizer (src/normalizers/index.ts), the visibility filter
(src/core/config.ts), the MCP JSON-RPC dispatcher (src/server/adapters/sse.ts)
and the read-only endpoints handler (src/server/router.ts), together with
theorems settling the specification claims about them.

JavaScript strings are modelled as `List Char`; `String.prototype` helpers
(`startsWith`, `endsWith`, `includes`, `toUpperCase`, ...) become the
corresponding list operations on characters.  The endpoint sort's
`localeCompare` is stood in for by code-point comparison; ICU/CLDR collation
can order punctuation and letter case differently (it puts `_` before `-`,
for instance), so no theorem below depends on the relative order the endpoint
sort assigns to two distinct paths.  The default comparator-less
`Array.sort()` of the tag list really is code-unit order, which `strLt`
models exactly.
-/

namespace DocMcp

/-- JavaScript string, modelled as a list of characters. -/
abbrev Str := List Char

/-- JS truthiness of an optional string: `undefined` and `""` are falsy. -/
def strTruthy : Option Str → Bool
  | none => false
  | some s => !s.isEmpty

/-- `o || dflt` on an optional string (JS `||` takes the fallback for
`undefined` and for the empty string). -/
def strOr (o : Option Str) (dflt : Str) : Str :=
  match o with
  | none => dflt
  | some s => if s.isEmpty then dflt else s

/-- ASCII lower-casing, `String.prototype.toLowerCase` on the ASCII strings
this program manipulates. -/
def lowerStr (s : Str) : Str := s.map Char.toLower

/-- ASCII upper-casing, `String.prototype.toUpperCase`. -/
def upperStr (s : Str) : Str := s.map Char.toUpper

/-- Character class of the regex `\w`: `[A-Za-z0-9_]`. -/
def isWordChar (c : Char) : Bool := c.isAlphanum || c == '_'


/- ## normalizePath (src/normalizers/index.ts, lines 160-170) -/

/-- `path.startsWith('/') ? path : '/' + path` — enforce a leading slash. -/
def ensureLeadingSlash (p : Str) : Str :=
  if p.head? = some '/' then p else '/' :: p

/-- `if (normalized.length > 1 && normalized.endsWith('/')) slice(0, -1)` —
strip one trailing slash, except on the one-character root. -/
def stripTrailingSlash (p : Str) : Str :=
  if p.length > 1 ∧ p.getLast? = some '/' then p.dropLast else p


/-- Fuel-indexed worker for `replaceColonParams`; the fuel only serves to make
the recursion structural, `replaceColonParams` supplies enough of it that the
zero case is never reached. -/
def replaceColonParamsF : Nat → Str → Str
  | 0, s => s
  | _ + 1, [] => []
  | fuel + 1, c :: rest =>
    if (c == ':') && !(rest.takeWhile isWordChar).isEmpty then
      '{' :: (rest.takeWhile isWordChar ++ '}' :: replaceColonParamsF fuel (rest.dropWhile isWordChar))
    else
      c :: replaceColonParamsF fuel rest

/-- `normalized.replace(/:(\w+)/g, '{$1}')`: every colon followed by a
non-empty run of word characters is rewritten to the run wrapped in braces.
The run is maximal because the regex quantifier is greedy. -/
def replaceColonParams (s : Str) : Str := replaceColonParamsF s.length s



/-- `normalizePath` from src/normalizers/index.ts: leading slash enforced,
one trailing slash stripped (except root), colon parameters rewritten to
brace form. -/
def normalizePath (p : Str) : Str :=
  replaceColonParams (stripTrailingSlash (ensureLeadingSlash p))

/- ## Visibility filtering (src/core/config.ts, isPathVisible / matchesPattern) -/

/-- `VisibilityConfig` from src/types.ts: optional include and exclude pattern
lists (the unused `exposeInternal` flag is carried for completeness). -/
structure VisibilityConfig where
  includePats : Option (List Str)
  excludePats : Option (List Str)
  exposeInternal : Bool
deriving DecidableEq

/-- Fuel-indexed matcher for the regex that `matchesPattern` builds out of a
pattern: the conversion rewrites `*` to `.*`, `?` to `.`, `/` to `\/` and
leaves every other character unescaped.  On patterns whose remaining
characters are regex-literal or the wildcard `.`, that regex matches exactly
as follows: `*` matches any character run, `?` and an unescaped `.` match any
single character, everything else matches itself, anchored at both ends —
which is what this function computes.  Patterns containing the unescaped
regex operators `^ $ + ( ) [ ] { } | \` keep their full regex meaning in the
source (an invalid one such as `[` even makes the RegExp constructor throw a
SyntaxError) and are outside this model; the glob-semantics theorems restrict
to `globSafeChar` patterns.  The fuel only makes the recursion structural;
`matchesPattern` passes enough that the zero case is unreachable
(`globMatchF_fuel_irrel`). -/
def globMatchF : Nat → Str → Str → Bool
  | 0, _, _ => false
  | fuel + 1, pat, s =>
    match pat, s with
    | [], [] => true
    | [], _ :: _ => false
    | '*' :: ps, s =>
      globMatchF fuel ps s ||
        (match s with
         | [] => false
         | _ :: s' => globMatchF fuel ('*' :: ps) s')
    | '?' :: ps, _ :: s' => globMatchF fuel ps s'
    | '.' :: ps, _ :: s' => globMatchF fuel ps s'
    | _ :: _, [] => false
    | c :: ps, d :: s' => c == d && globMatchF fuel ps s'


/-- `matchesPattern` from src/core/config.ts: glob-to-regex conversion and an
anchored test, modelled as the matching semantics of the regex it builds (see
`globMatchF` for the modelled pattern fragment). -/
def matchesPattern (path pat : Str) : Bool :=
  globMatchF (pat.length + path.length + 1) pat path

/-- The pattern semantics as the spec's words describe them: only `*` (any
character sequence) and `?` (any single character) are special, every other
pattern character — the dot included — matches itself literally.  A second,
spec-worded matcher kept next to the source-derived `matchesPattern` so the
two can be compared. -/
def specGlobMatchF : Nat → Str → Str → Bool
  | 0, _, _ => false
  | fuel + 1, pat, s =>
    match pat, s with
    | [], [] => true
    | [], _ :: _ => false
    | '*' :: ps, s =>
      specGlobMatchF fuel ps s ||
        (match s with
         | [] => false
         | _ :: s' => specGlobMatchF fuel ('*' :: ps) s')
    | '?' :: ps, _ :: s' => specGlobMatchF fuel ps s'
    | _ :: _, [] => false
    | c :: ps, d :: s' => c == d && specGlobMatchF fuel ps s'

/-- The anchored spec-worded matcher (see `specGlobMatchF`). -/
def matchesPatternSpec (path pat : Str) : Bool :=
  specGlobMatchF (pat.length + path.length + 1) pat path

/-- Characters the glob-to-regex conversion leaves with no regex meaning of
their own.  A pattern built only from these (the translated `*`, `?` and `/`
among them) means the same as a glob and never makes the RegExp constructor
throw; `.` and the unescaped regex operators are excluded. -/
def globSafeChar (c : Char) : Bool :=
  !(c == '.' || c == '^' || c == '$' || c == '+' || c == '(' || c == ')' ||
    c == '[' || c == ']' || c == '{' || c == '}' || c == '|' || c == '\\')

/-- `isPathVisible` from src/core/config.ts: excludes are checked first and
veto the path; when a non-empty include list is configured the path must match
one of its patterns; otherwise the path is visible. -/
def isPathVisible (path : Str) (vis : VisibilityConfig) : Bool :=
  if (vis.excludePats.getD []).any (fun pat => matchesPattern path pat) then
    false
  else
    match vis.includePats with
    | some inc =>
      if inc.length > 0 then inc.any (fun pat => matchesPattern path pat) else true
    | none => true

/-- The visibility predicate under the spec-worded pattern semantics
(`matchesPatternSpec`), kept for comparison with the source-derived
`isPathVisible`. -/
def isPathVisibleSpec (path : Str) (vis : VisibilityConfig) : Bool :=
  if (vis.excludePats.getD []).any (fun pat => matchesPatternSpec path pat) then
    false
  else
    match vis.includePats with
    | some inc =>
      if inc.length > 0 then inc.any (fun pat => matchesPatternSpec path pat) else true
    | none => true

/- ## Data model (src/types.ts)

Pass-through payloads that no embedded operation inspects (nested JSON
schemas, examples, security requirement objects, free-form metadata) are
carried as opaque optional strings so that "the field is preserved" remains a
meaningful statement. -/

/-- `ParameterSchema` from src/types.ts.  The TS field `in` is modelled as
`paramIn` (`in` is reserved in Lean); fields that the sources may omit are
`Option`s. -/
structure ParameterSchema where
  name : Str
  paramIn : Str
  required : Option Bool
  description : Option Str
  type : Option Str
  schemaVal : Option Str
  exampleVal : Option Str
  deprecated : Option Bool
deriving DecidableEq

/-- `statusCode: number | string` of `ResponseSchema`. -/
inductive StatusCode where
  | num (n : Nat)
  | str (s : Str)
deriving DecidableEq

/-- `ResponseSchema` from src/types.ts; `content` and `headers` are opaque
pass-through payloads. -/
structure ResponseSchema where
  statusCode : StatusCode
  description : Option Str
  content : Option Str
  headers : Option Str
deriving DecidableEq

/-- One media-type entry of a request body's `content` record; the nested
JSON schema is carried as its pretty-printed `JSON.stringify(·, null, 2)`
text, which is the only way the program ever renders it. -/
structure MediaObj where
  schemaText : Option Str
deriving DecidableEq

/-- `requestBody` of `EndpointSchema`: ordered `content` record plus optional
`required` and `description`. -/
structure RequestBody where
  required : Option Bool
  description : Option Str
  content : List (Str × MediaObj)
deriving DecidableEq

/-- Normalized `EndpointSchema` from src/types.ts. -/
structure Endpoint where
  method : Str
  path : Str
  operationId : Str
  summary : Option Str
  description : Option Str
  tags : List Str
  parameters : List ParameterSchema
  responses : List ResponseSchema
  requestBody : Option RequestBody
  security : Option Str
  deprecated : Bool
  metadata : Option Str
deriving DecidableEq

/-- `Partial<EndpointSchema>`: a candidate endpoint as an extractor produced
it, every field optional. -/
structure EndpointCandidate where
  method : Option Str
  path : Option Str
  operationId : Option Str
  summary : Option Str
  description : Option Str
  tags : Option (List Str)
  parameters : Option (List ParameterSchema)
  responses : Option (List ResponseSchema)
  requestBody : Option RequestBody
  security : Option Str
  deprecated : Option Bool
  metadata : Option Str
deriving DecidableEq

/-- A candidate with every field absent, for building concrete test inputs. -/
def emptyCandidate : EndpointCandidate :=
  ⟨none, none, none, none, none, none, none, none, none, none, none, none⟩

/-- `DocResource` fields consulted by the dispatcher (id, name, summary,
content); the remaining fields are pass-through and never read. -/
structure DocResource where
  id : Str
  name : Str
  summary : Option Str
  content : Option Str
deriving DecidableEq

/-- The slice of `ApiMetadata` the dispatcher reads. -/
structure ApiMetadata where
  title : Option Str
  version : Option Str
deriving DecidableEq

/-- The slice of `NormalizedSchema` the dispatcher and router read. -/
structure NormalizedSchema where
  metadata : ApiMetadata
  endpoints : List Endpoint
  resources : List DocResource
deriving DecidableEq

/-- The slice of `ResolvedConfig` the normalizer consults (only the
visibility policy; metadata/auth/basePath do not feed the embedded
functions). -/
structure ResolvedConfig where
  visibility : VisibilityConfig
deriving DecidableEq


/- ## Parameter / response normalization (src/normalizers/index.ts) -/

/-- `normalizeParameters`: `required` defaults (nullish coalescing `??`) to
"is a path parameter", `type` defaults (falsy `||`) to `"string"`,
`deprecated` defaults to `false`. -/
def normalizeParameters (params : List ParameterSchema) : List ParameterSchema :=
  params.map fun param =>
    { name := param.name
      paramIn := param.paramIn
      required := some (param.required.getD (param.paramIn == "path".data))
      description := param.description
      type := some (strOr param.type "string".data)
      schemaVal := param.schemaVal
      exampleVal := param.exampleVal
      deprecated := some (param.deprecated.getD false) }

/-- `getDefaultResponseDescription`: the fixed status-code table, with
`"default"` and unknown codes handled as in the source. -/
def getDefaultResponseDescription (statusCode : StatusCode) : Str :=
  match statusCode with
  | .str s => if s == "default".data then "Default response".data else "Response".data
  | .num n =>
    if n = 200 then "Successful response".data
    else if n = 201 then "Resource created".data
    else if n = 204 then "No content".data
    else if n = 400 then "Bad request".data
    else if n = 401 then "Unauthorized".data
    else if n = 403 then "Forbidden".data
    else if n = 404 then "Not found".data
    else if n = 500 then "Internal server error".data
    else "Response".data

/-- `normalizeResponses`: an empty list is replaced by one synthesized
`200 / "Successful response"`; otherwise descriptions are filled from the
table when falsy. -/
def normalizeResponses (responses : List ResponseSchema) : List ResponseSchema :=
  if responses.isEmpty then
    [{ statusCode := .num 200, description := some "Successful response".data,
       content := none, headers := none }]
  else
    responses.map fun r =>
      { statusCode := r.statusCode
        description := some (strOr r.description (getDefaultResponseDescription r.statusCode))
        content := r.content
        headers := r.headers }

/-- `generateOperationId`: camel-case derivation from method and path
segments. -/
def generateOperationId (method path : Str) : Str :=
  let stripped := path.filter (fun c => !(c == '{' || c == '}'))
  let parts := (stripped.splitOn '/').filter (fun p => !p.isEmpty)
  let cased := parts.mapIdx fun i p =>
    if i = 0 then lowerStr p
    else
      match p with
      | [] => []
      | c :: rest => Char.toUpper c :: lowerStr rest
  let capped := cased.map fun p =>
    match p with
    | [] => []
    | c :: rest => Char.toUpper c :: rest
  lowerStr method ++ capped.flatten

/-- `methodOrder`: the fixed method precedence table, unknown methods last. -/
def methodOrder (m : Str) : Nat :=
  if m = "GET".data then 0
  else if m = "POST".data then 1
  else if m = "PUT".data then 2
  else if m = "PATCH".data then 3
  else if m = "DELETE".data then 4
  else if m = "HEAD".data then 5
  else if m = "OPTIONS".data then 6
  else 99

/-- Code-point (UTF-16 code-unit) lexicographic comparison.  This is exactly
the default comparator-less `Array.sort()` used on the router's tag list.  As
a stand-in for the endpoint sort's `path.localeCompare` it fixes one definite
total order, whereas ICU/CLDR collation may order punctuation and letter case
differently; no theorem below depends on the relative order the endpoint sort
assigns to two distinct paths. -/
def strLt : Str → Str → Bool
  | [], [] => false
  | [], _ :: _ => true
  | _ :: _, [] => false
  | c :: a', d :: b' => if c < d then true else if d < c then false else strLt a' b'

/-- The endpoint sort comparator of `normalizeEndpoints`: path first (the
`localeCompare`, stood in for by `strLt` — see there), then the fixed method
precedence. -/
def endpointLt (a b : Endpoint) : Bool :=
  strLt a.path b.path ||
    (a.path == b.path && decide (methodOrder a.method < methodOrder b.method))

/-- Insert `a` after every element it does not strictly precede: combined
with a left fold this is a stable insertion sort, matching the stable
`Array.prototype.sort`. -/
def insertSorted (a : Endpoint) : List Endpoint → List Endpoint
  | [] => [a]
  | b :: l => if endpointLt a b then a :: b :: l else b :: insertSorted a l

/-- Stable sort by `endpointLt` (path, then method precedence). -/
def sortEndpoints (l : List Endpoint) : List Endpoint :=
  l.foldl (fun acc e => insertSorted e acc) []


/- ## Endpoint normalization (src/normalizers/index.ts, normalizeEndpoints) -/

/-- JS truthiness of the candidate's method and path: the candidate is
dropped when either is `undefined` or the empty string. -/
def candidateOk (e : EndpointCandidate) : Bool :=
  strTruthy e.method && strTruthy e.path

/-- The duplicate key `` `${endpoint.method}:${endpoint.path}` `` — built from
the RAW method and path, before any normalization. -/
def rawKey (e : EndpointCandidate) : Str :=
  e.method.getD [] ++ ':' :: e.path.getD []

/-- Normalization of one accepted candidate: method upper-cased, path
normalized, operation id defaulted, parameters/responses normalized,
remaining fields carried over with their defaults. -/
def normalizeCandidate (e : EndpointCandidate) : Endpoint :=
  { method := upperStr (e.method.getD [])
    path := normalizePath (e.path.getD [])
    operationId := strOr e.operationId (generateOperationId (e.method.getD []) (e.path.getD []))
    summary := e.summary
    description := e.description
    tags := e.tags.getD []
    parameters := normalizeParameters (e.parameters.getD [])
    responses := normalizeResponses (e.responses.getD [])
    requestBody := e.requestBody
    security := e.security
    deprecated := e.deprecated.getD false
    metadata := e.metadata }

/-- The accumulation loop of `normalizeEndpoints`: skip invalid candidates,
skip invisible paths, skip duplicates of an already-`seen` raw key, otherwise
record the key and keep the normalized endpoint. -/
def goEndpoints (config : ResolvedConfig) : List EndpointCandidate → List Str → List Endpoint
  | [], _ => []
  | e :: rest, seen =>
    if !candidateOk e then goEndpoints config rest seen
    else if !isPathVisible (e.path.getD []) config.visibility then goEndpoints config rest seen
    else if seen.contains (rawKey e) then goEndpoints config rest seen
    else normalizeCandidate e :: goEndpoints config rest (rawKey e :: seen)

/-- `normalizeEndpoints`: the filtering/deduplicating loop followed by the
stable sort by path then method precedence. -/
def normalizeEndpoints (parsed : List EndpointCandidate) (config : ResolvedConfig) :
    List Endpoint :=
  sortEndpoints (goEndpoints config parsed [])


/- ## Source provenance (src/normalizers/index.ts, determineSourceType) -/

inductive SourceType where
  | openapi
  | markdown
  | mixed
deriving DecidableEq

/-- `String.prototype.startsWith`-style test: does `s` start with `pre`? -/
def strStartsWith : Str → Str → Bool
  | _, [] => true
  | [], _ :: _ => false
  | c :: s', d :: p' => c == d && strStartsWith s' p'

/-- `String.prototype.includes`: does `s` contain `needle` as a contiguous
substring? -/
def strContains : Str → Str → Bool
  | [], needle => needle.isEmpty
  | c :: s', needle => strStartsWith (c :: s') needle || strContains s' needle

/-- `String.prototype.endsWith`: does `s` end with `suffix`? -/
def strEndsWith (s suffix : Str) : Bool :=
  strStartsWith s.reverse suffix.reverse

/-- One source identifier "looks like" a structured spec: name marker
`openapi`/`swagger` anywhere, or extension `.yaml`/`.yml`/`.json`. -/
def isOpenApiSource (s : Str) : Bool :=
  strContains s "openapi".data || strContains s "swagger".data ||
    strEndsWith s ".yaml".data || strEndsWith s ".yml".data || strEndsWith s ".json".data

/-- One source identifier "looks like" prose: extension `.md`/`.markdown`. -/
def isMarkdownSource (s : Str) : Bool :=
  strEndsWith s ".md".data || strEndsWith s ".markdown".data

/-- `determineSourceType`: `mixed` when a spec-looking and a prose-looking
source both occur, `markdown` when only a prose-looking one occurs, and
`openapi` in every other case. -/
def determineSourceType (sources : List Str) : SourceType :=
  let hasOpenAPI := sources.any isOpenApiSource
  let hasMarkdown := sources.any isMarkdownSource
  if hasOpenAPI && hasMarkdown then .mixed
  else if hasMarkdown then .markdown
  else .openapi

/- ## MCP dispatcher data (src/server/adapters/sse.ts) -/

/-- JSON-RPC `id`: `string | number`. -/
inductive RpcId where
  | str (s : Str)
  | num (n : Int)
deriving DecidableEq

/-- One property of a generated tool input schema (its `type` and
`description`). -/
structure ToolProp where
  typ : Str
  description : Str
deriving DecidableEq

/-- A generated `inputSchema`: ordered property record plus required-name
list.  The constant `type: "object"` field is the same on every tool and is
not carried. -/
structure ToolInput where
  properties : List (Str × ToolProp)
  required : List Str
deriving DecidableEq

/-- A tool descriptor as produced by `tools/list`. -/
structure ToolDesc where
  name : Str
  description : Str
  inputSchema : ToolInput
deriving DecidableEq

/-- A resource descriptor as produced by `resources/list`. -/
structure ResourceDesc where
  uri : Str
  name : Str
  description : Str
  mimeType : Str
deriving DecidableEq

/-- The result shapes the dispatcher can return. -/
inductive RpcResult where
  | emptyObj
  | initRes (protocolVersion name version : Str)
  | toolsRes (tools : List ToolDesc)
  | textRes (text : Str)
  | resListRes (resources : List ResourceDesc)
  | readRes (uri mimeType text : Str)
  | promptsRes
deriving DecidableEq

/-- A structured JSON-RPC error `{code, message}`. -/
structure RpcError where
  code : Int
  message : Str
deriving DecidableEq

/-- A JSON-RPC response (`jsonrpc: '2.0'` constant omitted). -/
structure JsonRpcResponse where
  id : RpcId
  result : Option RpcResult
  error : Option RpcError
deriving DecidableEq

/-- The `arguments` record of a tool call; only `query` is ever read. -/
structure ToolArgs where
  query : Option Str
deriving DecidableEq

/-- Duck-typed request params: the dispatcher casts them per method, so one
record with the fields any handler may read models the cast. -/
structure RpcParams where
  name : Option Str
  arguments : Option ToolArgs
  uri : Option Str
deriving DecidableEq

/-- A JSON-RPC request. -/
structure JsonRpcRequest where
  id : RpcId
  method : Str
  params : Option RpcParams
deriving DecidableEq

/-- An `McpSession`: the schema snapshot it was created against and the
handshake flag (the output channel is transport, not modelled). -/
structure McpSession where
  sessionId : Str
  schema : NormalizedSchema
  initialized : Bool
deriving DecidableEq

/-- A thrown JavaScript `Error`; every failure the dispatch body can raise is
an `Error` object carrying a message (the concrete TypeError texts are
engine-specific and modelled as fixed strings). -/
structure JsException where
  message : Str
deriving DecidableEq


/- ## MCP handlers (src/server/adapters/sse.ts) -/

/-- `handleInitialize`: protocol version, empty capability flags and server
identity from the schema metadata. -/
def handleInitialize (id : RpcId) (s : McpSession) : JsonRpcResponse :=
  { id
    result := some (.initRes "2024-11-05".data
      (strOr s.schema.metadata.title "doc-mcp".data)
      (strOr s.schema.metadata.version "1.0.0".data))
    error := none }

/-- `getParamsByLocation`: filter parameters by their `in` location. -/
def getParamsByLocation (params : List ParameterSchema) (loc : Str) : List ParameterSchema :=
  params.filter (fun p => p.paramIn == loc)

/-- The tool name derived from an endpoint:
`` `${method.toLowerCase()}_${path.replace(/[^a-zA-Z0-9]/g, '_')}` ``. -/
def toolName (e : Endpoint) : Str :=
  lowerStr e.method ++ '_' :: e.path.map (fun c => if c.isAlphanum then c else '_')

/-- JS object-key insertion: a later assignment to an existing key updates it
in place, a new key is appended. -/
def upsertProp (props : List (Str × ToolProp)) (key : Str) (v : ToolProp) :
    List (Str × ToolProp) :=
  match props with
  | [] => [(key, v)]
  | (k, w) :: rest => if k == key then (k, v) :: rest else (k, w) :: upsertProp rest key v

/-- `buildToolProperties`: path parameters, then query parameters, then a
`body` property when a request body (with its `content` record) exists. -/
def buildToolProperties (e : Endpoint) : List (Str × ToolProp) :=
  let p1 := (getParamsByLocation e.parameters "path".data).foldl
    (fun acc param => upsertProp acc param.name
      ⟨strOr param.type "string".data,
       strOr param.description ("Path parameter: ".data ++ param.name)⟩) []
  let p2 := (getParamsByLocation e.parameters "query".data).foldl
    (fun acc param => upsertProp acc param.name
      ⟨strOr param.type "string".data,
       strOr param.description ("Query parameter: ".data ++ param.name)⟩) p1
  match e.requestBody with
  | some rb => upsertProp p2 "body".data ⟨"object".data, strOr rb.description "Request body".data⟩
  | none => p2

/-- `getRequiredParams`: required path parameters, required query parameters,
then `"body"` when the request body is required. -/
def getRequiredParams (e : Endpoint) : List Str :=
  ((getParamsByLocation e.parameters "path".data).filter
      (fun p => p.required.getD false)).map (fun p => p.name) ++
    ((getParamsByLocation e.parameters "query".data).filter
      (fun p => p.required.getD false)).map (fun p => p.name) ++
    (match e.requestBody with
     | some rb => if rb.required.getD false then ["body".data] else []
     | none => [])

/-- The tool descriptor `tools/list` projects out of one endpoint. -/
def endpointTool (e : Endpoint) : ToolDesc :=
  { name := toolName e
    description := strOr e.summary (strOr e.description (e.method ++ ' ' :: e.path))
    inputSchema := ⟨buildToolProperties e, getRequiredParams e⟩ }

/-- The fixed free-text search tool appended by `tools/list`. -/
def searchTool : ToolDesc :=
  { name := "search_docs".data
    description := "Search the API documentation".data
    inputSchema := ⟨[("query".data, ⟨"string".data, "Search query".data⟩)], ["query".data]⟩ }

/-- `handleToolsList`: every endpoint as a tool, plus `search_docs`. -/
def handleToolsList (id : RpcId) (s : McpSession) : JsonRpcResponse :=
  { id
    result := some (.toolsRes (s.schema.endpoints.map endpointTool ++ [searchTool]))
    error := none }

/-- Decimal rendering of a numeric status code (the template-literal
stringification `` `${statusCode}` ``). -/
def statusCodeStr : StatusCode → Str
  | .num n => (Nat.repr n).data
  | .str s => s

/-- `formatEndpointDocs`: the Markdown document describing one endpoint. -/
def formatEndpointDocs (e : Endpoint) : Str :=
  let header := "# ".data ++ e.method ++ ' ' :: e.path ++ "\n\n".data
  let summaryPart := if strTruthy e.summary then e.summary.getD [] ++ "\n\n".data else []
  let descPart := if strTruthy e.description then e.description.getD [] ++ "\n\n".data else []
  let paramsPart :=
    if e.parameters.length > 0 then
      "## Parameters\n\n".data ++
        (e.parameters.map (fun param =>
          "- **".data ++ param.name ++ "** (".data ++ param.paramIn ++
            (if param.required.getD false then ", required".data else []) ++
            "): ".data ++ param.description.getD [] ++ "\n".data)).flatten ++
        "\n".data
    else []
  let bodyPart :=
    match e.requestBody with
    | none => []
    | some rb =>
      "## Request Body\n\n".data ++
        (if strTruthy rb.description then rb.description.getD [] ++ "\n\n".data else []) ++
        (match rb.content with
         | [] => []
         | (_, m) :: _ =>
           match m.schemaText with
           | some st => "```json\n".data ++ st ++ "\n```\n\n".data
           | none => [])
  let respPart :=
    if e.responses.length > 0 then
      "## Responses\n\n".data ++
        (e.responses.map (fun r =>
          "### ".data ++ statusCodeStr r.statusCode ++ '\n' :: r.description.getD [] ++
            "\n\n".data)).flatten
    else []
  header ++ summaryPart ++ descPart ++ paramsPart ++ bodyPart ++ respPart

/-- `Array.prototype.join` with a separator. -/
def joinSep (sep : Str) : List Str → Str
  | [] => []
  | [x] => x
  | x :: xs => x ++ sep ++ joinSep sep xs

/-- The Markdown section the search tool renders for one matching resource. -/
def searchFormat (r : DocResource) : Str :=
  "## ".data ++ r.name ++ '\n' :: r.summary.getD [] ++ "\n\n".data ++ r.content.getD []

/-- The search predicate: case-insensitive substring match of the query
against name, summary and content (absent fields fail the test, as the
optional chaining does). -/
def searchMatches (query : Str) (r : DocResource) : Bool :=
  strContains (lowerStr r.name) query ||
    (match r.summary with
     | some t => strContains (lowerStr t) query
     | none => false) ||
    (match r.content with
     | some t => strContains (lowerStr t) query
     | none => false)

/-- Template-literal stringification of a possibly-undefined string. -/
def renderOptStr : Option Str → Str
  | none => "undefined".data
  | some s => s

/-- `handleToolsCall`: the `search_docs` branch filters resources by the
(lower-cased, defaulted-to-empty) query; any other name is resolved to the
first endpoint with that derived tool name, or an "Unknown tool" error. -/
def handleToolsCall (id : RpcId) (p : RpcParams) (s : McpSession) : JsonRpcResponse :=
  if p.name == some "search_docs".data then
    let query := lowerStr ((p.arguments.bind ToolArgs.query).getD [])
    let results := s.schema.resources.filter (searchMatches query)
    { id
      result := some (.textRes
        (if results.length > 0 then
          joinSep "\n\n---\n\n".data (results.map searchFormat)
        else "No results found".data))
      error := none }
  else
    match s.schema.endpoints.find? (fun e =>
      match p.name with
      | some n => toolName e == n
      | none => false) with
    | some e => { id, result := some (.textRes (formatEndpointDocs e)), error := none }
    | none =>
      { id, result := none
        error := some ⟨-32602, "Unknown tool: ".data ++ renderOptStr p.name⟩ }

/-- `handleResourcesList`: one `doc://` descriptor per documentation
resource, then one `endpoint://` descriptor per endpoint. -/
def handleResourcesList (id : RpcId) (s : McpSession) : JsonRpcResponse :=
  let docRes := s.schema.resources.map (fun r =>
    ResourceDesc.mk ("doc://".data ++ r.id) r.name (r.summary.getD []) "text/markdown".data)
  let epRes := s.schema.endpoints.map (fun e =>
    ResourceDesc.mk ("endpoint://".data ++ e.method ++ e.path) (e.method ++ ' ' :: e.path)
      (strOr e.summary (e.description.getD [])) "text/markdown".data)
  { id, result := some (.resListRes (docRes ++ epRes)), error := none }

/-- `handleResourcesRead`: resolve a `doc://` id to the resource text (or a
synthesized header), an `endpoint://` reference to the endpoint document, and
error on unknown ids or schemes.  `uri.replace(scheme, '')` on a string that
starts with the scheme is dropping the scheme beginning. -/
def handleResourcesRead (id : RpcId) (uri : Str) (s : McpSession) : JsonRpcResponse :=
  if strStartsWith uri "doc://".data then
    let resourceId := uri.drop "doc://".data.length
    match s.schema.resources.find? (fun r => r.id == resourceId) with
    | some r =>
      { id
        result := some (.readRes uri "text/markdown".data
          (strOr r.content ("# ".data ++ r.name ++ "\n\n".data ++ r.summary.getD [])))
        error := none }
    | none =>
      { id, result := none
        error := some ⟨-32602, "Resource not found: ".data ++ uri⟩ }
  else if strStartsWith uri "endpoint://".data then
    let endpointRef := uri.drop "endpoint://".data.length
    match s.schema.endpoints.find? (fun e => e.method ++ e.path == endpointRef) with
    | some e =>
      { id, result := some (.readRes uri "text/markdown".data (formatEndpointDocs e))
        error := none }
    | none =>
      { id, result := none
        error := some ⟨-32602, "Endpoint not found: ".data ++ uri⟩ }
  else
    { id, result := none
      error := some ⟨-32602, "Unknown URI scheme: ".data ++ uri⟩ }

/-- The method names of the dispatch table. -/
def knownMethods : List Str :=
  ["initialize".data, "initialized".data, "tools/list".data, "tools/call".data,
   "resources/list".data, "resources/read".data, "prompts/list".data, "ping".data]

/-- The body of `handleMcpRequest`'s `try` block: the fixed method table.
Raised failures (destructuring `undefined` params, calling `startsWith` on an
`undefined` uri) surface as `Except.error`. -/
def runMcpBody (req : JsonRpcRequest) (s : McpSession) :
    Except JsException (JsonRpcResponse × McpSession) :=
  if req.method = "initialize".data then
    .ok (handleInitialize req.id s, s)
  else if req.method = "initialized".data then
    .ok ({ id := req.id, result := some .emptyObj, error := none }, { s with initialized := true })
  else if req.method = "tools/list".data then
    .ok (handleToolsList req.id s, s)
  else if req.method = "tools/call".data then
    match req.params with
    | none => .error ⟨"Cannot destructure property name of params as it is undefined.".data⟩
    | some p => .ok (handleToolsCall req.id p s, s)
  else if req.method = "resources/list".data then
    .ok (handleResourcesList req.id s, s)
  else if req.method = "resources/read".data then
    match req.params with
    | none => .error ⟨"Cannot destructure property uri of params as it is undefined.".data⟩
    | some p =>
      match p.uri with
      | none => .error ⟨"Cannot read properties of undefined (reading startsWith).".data⟩
      | some uri => .ok (handleResourcesRead req.id uri s, s)
  else if req.method = "prompts/list".data then
    .ok ({ id := req.id, result := some .promptsRes, error := none }, s)
  else if req.method = "ping".data then
    .ok ({ id := req.id, result := some .emptyObj, error := none }, s)
  else
    .ok ({ id := req.id, result := none
           error := some ⟨-32601, "Method not found: ".data ++ req.method⟩ }, s)

/-- `handleMcpRequest`: the method table wrapped in `try/catch`; a raised
failure becomes a structured `-32603` response carrying the failure's
message. -/
def handleMcpRequest (req : JsonRpcRequest) (s : McpSession) : JsonRpcResponse × McpSession :=
  match runMcpBody req s with
  | .ok rs => rs
  | .error e => ({ id := req.id, result := none, error := some ⟨-32603, e.message⟩ }, s)


/- ## Read-only endpoints handler (src/server/router.ts) -/

/-- Filter query for `GET /mcp/endpoints`. -/
structure EndpointsQuery where
  tag : Option Str
  method : Option Str
  path : Option Str
  deprecated : Option Bool
deriving DecidableEq

/-- `filterEndpoints`: truthy `tag` filters by exact membership in the tag
list, truthy `method` matches case-insensitively, truthy `path` filters by
substring, a present `deprecated` flag (`!== undefined`) by equality. -/
def filterEndpoints (endpoints : List Endpoint) (query : EndpointsQuery) : List Endpoint :=
  endpoints.filter fun e =>
    (!strTruthy query.tag || e.tags.contains (query.tag.getD [])) &&
    (!strTruthy query.method || upperStr e.method == upperStr (query.method.getD [])) &&
    (!strTruthy query.path || strContains e.path (query.path.getD [])) &&
    (match query.deprecated with
     | none => true
     | some d => e.deprecated == d)

/-- Insertion step of the string sort used for the tag list. -/
def insertSortedStr (a : Str) : List Str → List Str
  | [] => [a]
  | b :: l => if strLt a b then a :: b :: l else b :: insertSortedStr a l

/-- `Array.from(set).sort()`: default lexicographic string sort. -/
def sortStrs (l : List Str) : List Str :=
  l.foldl (fun acc s => insertSortedStr s acc) []

/-- `Set` accumulation of every endpoint's tags, in insertion order. -/
def collectTags (endpoints : List Endpoint) : List Str :=
  endpoints.foldl
    (fun acc e => e.tags.foldl (fun acc2 t => if acc2.contains t then acc2 else acc2 ++ [t]) acc)
    []

/-- The `McpEndpointsResponse` shape: filtered list, count, sorted unique
tags. -/
structure McpEndpointsResponse where
  endpoints : List Endpoint
  count : Nat
  tags : List Str
deriving DecidableEq

/-- `handleEndpoints`: apply the filters when a query is supplied; the tag
set is collected from ALL endpoints of the schema, the count from the
filtered list. -/
def handleEndpoints (schema : NormalizedSchema) (query : Option EndpointsQuery) :
    McpEndpointsResponse :=
  let endpoints :=
    match query with
    | none => schema.endpoints
    | some q => filterEndpoints schema.endpoints q
  { endpoints
    count := endpoints.length
    tags := sortStrs (collectTags schema.endpoints) }

/- ## Derived definitions used by the theorems -/

/-- A candidate survives the validity and visibility checks of
`normalizeEndpoints`. -/
def acceptCandidate (config : ResolvedConfig) (e : EndpointCandidate) : Bool :=
  candidateOk e && isPathVisible (e.path.getD []) config.visibility

/-- Declarative first-occurrence deduplication by raw key, starting from the
keys in `seen`: the specification against which the `goEndpoints` loop is
proved. -/
def dedupByKey (seen : List Str) : List EndpointCandidate → List EndpointCandidate
  | [] => []
  | e :: rest =>
    if seen.contains (rawKey e) then dedupByKey seen rest
    else e :: dedupByKey (rawKey e :: seen) rest

/-- Does the string start with a word character? -/
def headIsWord : Str → Bool
  | [] => false
  | c :: _ => isWordChar c

/-- No position of the string matches the regex `:(\w+)` — such strings are
fixed points of `replaceColonParams`. -/
def matchFree : Str → Bool
  | [] => true
  | c :: rest => !(c == ':' && headIsWord rest) && matchFree rest


/- ## Concrete fixtures for witnesses and counterexamples -/

/-- An empty visibility policy (no includes, no excludes). -/
def noVisibility : VisibilityConfig := ⟨none, none, false⟩

/-- A config with the empty visibility policy. -/
def plainConfig : ResolvedConfig := ⟨noVisibility⟩

/-- The visibility scenario of the spec:
include `/api/*`, exclude `/api/admin/*`. -/
def apiVisibility : VisibilityConfig :=
  ⟨some ["/api/*".data], some ["/api/admin/*".data], false⟩

/-- Candidate `GET /users`. -/
def candUpperGet : EndpointCandidate :=
  { emptyCandidate with method := some "GET".data, path := some "/users".data }

/-- Candidate `get /users` — same endpoint up to method case. -/
def candLowerGet : EndpointCandidate :=
  { emptyCandidate with method := some "get".data, path := some "/users".data }

/-- Candidate `GET /a-b`; its tool name collides with `GET /a_b`. -/
def candDashPath : EndpointCandidate :=
  { emptyCandidate with method := some "GET".data, path := some "/a-b".data }

/-- Candidate `GET /a_b`; its tool name collides with `GET /a-b`. -/
def candUnderscorePath : EndpointCandidate :=
  { emptyCandidate with method := some "GET".data, path := some "/a_b".data }

/-- Candidate `GET /users` carrying tag `users`. -/
def candTagged : EndpointCandidate :=
  { candUpperGet with tags := some ["users".data] }

/-- The normalized endpoint `GET /a-b`. -/
def dashEndpoint : Endpoint := normalizeCandidate candDashPath

/-- The normalized endpoint `GET /a_b`. -/
def underscoreEndpoint : Endpoint := normalizeCandidate candUnderscorePath

/-- Schema holding the two tool-name-colliding endpoints with `/a_b` first —
the order the program's `localeCompare` sort produces (ICU collation puts the
connector `_` before the dash `-`). -/
def collideSchemaUnderFirst : NormalizedSchema :=
  ⟨⟨none, none⟩, [underscoreEndpoint, dashEndpoint], []⟩

/-- Schema holding the same two endpoints in the opposite order, so that the
refutation covers either possible sort order. -/
def collideSchemaDashFirst : NormalizedSchema :=
  ⟨⟨none, none⟩, [dashEndpoint, underscoreEndpoint], []⟩

/-- Session over `collideSchemaUnderFirst`. -/
def collideSessionUnderFirst : McpSession := ⟨"s1".data, collideSchemaUnderFirst, false⟩

/-- Session over `collideSchemaDashFirst`. -/
def collideSessionDashFirst : McpSession := ⟨"s1b".data, collideSchemaDashFirst, false⟩

/-- Schema holding the single endpoint `GET /users`. -/
def soloSchema : NormalizedSchema :=
  ⟨⟨none, none⟩, normalizeEndpoints [candUpperGet] plainConfig, []⟩

/-- Session over `soloSchema`. -/
def soloSession : McpSession := ⟨"s2".data, soloSchema, false⟩

/-- Schema holding the single tagged endpoint. -/
def taggedSchema : NormalizedSchema :=
  ⟨⟨none, none⟩, normalizeEndpoints [candTagged] plainConfig, []⟩

/-- Endpoints query filtering by tag `user` (a proper substring of the tag
`users`). -/
def tagQuery : EndpointsQuery := ⟨some "user".data, none, none, none⟩

/-- The `Button` resource of the spec's search scenario. -/
def buttonResource : DocResource :=
  ⟨"btn".data, "Button".data, none, some "A clickable button".data⟩

/-- The `Modal` resource of the spec's search scenario. -/
def modalResource : DocResource :=
  ⟨"mod".data, "Modal".data, none, some "A dialog overlay".data⟩

/-- Schema holding only the two search-scenario resources. -/
def searchSchema : NormalizedSchema := ⟨⟨none, none⟩, [], [buttonResource, modalResource]⟩

/-- Session over `searchSchema`. -/
def searchSession : McpSession := ⟨"s3".data, searchSchema, false⟩

/-- Session over the completely empty schema. -/
def emptySession : McpSession := ⟨"s4".data, ⟨⟨none, none⟩, [], []⟩, false⟩

/-- The single normalized endpoint of `soloSchema`. -/
def soloEndpoint : Endpoint := normalizeCandidate candUpperGet

/-- A path parameter explicitly marked not required by its source. -/
def pathParamNotRequired : ParameterSchema :=
  ⟨"id".data, "path".data, some false, none, none, none, none, none⟩

/-- A declared 404 response with no description. -/
def bareNotFoundResponse : ResponseSchema := ⟨.num 404, none, none, none⟩


/- ## Helper lemmas for the fuel-indexed workers -/

theorem length_dropWhile_le (p : Char → Bool) (l : List Char) :
    (l.dropWhile p).length ≤ l.length := by
  induction l with
  | nil => simp
  | cons c rest ih =>
    by_cases h : p c
    · simp only [List.dropWhile_cons_of_pos h]
      exact le_trans ih (Nat.le_succ _)
    · simp [List.dropWhile_cons_of_neg h]

theorem replaceColonParamsF_fuel_irrel :
    ∀ (f g : Nat) (s : Str), s.length ≤ f → s.length ≤ g →
      replaceColonParamsF f s = replaceColonParamsF g s := by
  intro f
  induction f with
  | zero =>
    intro g s hf _
    have : s = [] := List.length_eq_zero.mp (Nat.le_zero.mp hf)
    subst this
    cases g <;> rfl
  | succ f ih =>
    intro g s hf hg
    cases s with
    | nil => cases g <;> rfl
    | cons c rest =>
      cases g with
      | zero => exact absurd hg (by simp)
      | succ g =>
        have hrf : rest.length ≤ f := Nat.le_of_succ_le_succ hf
        have hrg : rest.length ≤ g := Nat.le_of_succ_le_succ hg
        simp only [replaceColonParamsF]
        by_cases hc : ((c == ':') && !(rest.takeWhile isWordChar).isEmpty) = true
        · simp only [hc, if_true]
          have hd := length_dropWhile_le isWordChar rest
          rw [ih g (rest.dropWhile isWordChar) (le_trans hd hrf) (le_trans hd hrg)]
        · simp only [hc, if_false, Bool.false_eq_true]
          rw [ih g rest hrf hrg]

/-- Unfolding equation of `replaceColonParams` on a cons cell. -/
theorem replaceColonParams_cons (c : Char) (rest : Str) :
    replaceColonParams (c :: rest) =
      if (c == ':') && !(rest.takeWhile isWordChar).isEmpty then
        '{' :: (rest.takeWhile isWordChar ++ '}' :: replaceColonParams (rest.dropWhile isWordChar))
      else
        c :: replaceColonParams rest := by
  show replaceColonParamsF (rest.length + 1) (c :: rest) = _
  simp only [replaceColonParamsF]
  by_cases hc : ((c == ':') && !(rest.takeWhile isWordChar).isEmpty) = true
  · simp only [hc, if_true]
    rw [replaceColonParamsF_fuel_irrel rest.length (rest.dropWhile isWordChar).length
      (rest.dropWhile isWordChar) (length_dropWhile_le isWordChar rest) le_rfl]
    rfl
  · simp only [hc, if_false, Bool.false_eq_true]
    rfl

theorem globMatchF_fuel_irrel :
    ∀ (f g : Nat) (pat s : Str), pat.length + s.length < f → pat.length + s.length < g →
      globMatchF f pat s = globMatchF g pat s := by
  intro f
  induction f with
  | zero => intro g pat s hf _; omega
  | succ f ih =>
    intro g pat s hf hg
    cases g with
    | zero => omega
    | succ g =>
      cases pat with
      | nil => cases s <;> rfl
      | cons c ps =>
        by_cases hstar : c = '*'
        · subst hstar
          cases s with
          | nil =>
            simp only [globMatchF]
            rw [ih g ps [] (by simp at hf ⊢; omega) (by simp at hg ⊢; omega)]
          | cons d s' =>
            simp only [globMatchF]
            rw [ih g ps (d :: s') (by simp at hf ⊢; omega) (by simp at hg ⊢; omega),
              ih g ('*' :: ps) s' (by simp at hf ⊢; omega) (by simp at hg ⊢; omega)]
        · by_cases hq : c = '?'
          · subst hq
            cases s with
            | nil => rfl
            | cons d s' =>
              simp only [globMatchF]
              exact ih g ps s' (by simp at hf ⊢; omega) (by simp at hg ⊢; omega)
          · by_cases hdot : c = '.'
            · subst hdot
              cases s with
              | nil => rfl
              | cons d s' =>
                rw [globMatchF.eq_7 f ps d s', globMatchF.eq_7 g ps d s']
                exact ih g ps s' (by simp at hf ⊢; omega) (by simp at hg ⊢; omega)
            · cases s with
              | nil =>
                rw [globMatchF.eq_8 f c ps (fun h => hstar h),
                  globMatchF.eq_8 g c ps (fun h => hstar h)]
              | cons d s' =>
                rw [globMatchF.eq_9 f c ps d s' (fun h => hstar h) (fun h => hq h)
                    (fun h => hdot h),
                  globMatchF.eq_9 g c ps d s' (fun h => hstar h) (fun h => hq h)
                    (fun h => hdot h),
                  ih g ps s' (by simp at hf ⊢; omega) (by simp at hg ⊢; omega)]

/-- On patterns free of regex metacharacters (`globSafeChar`), the
source-derived matcher and the spec-worded glob matcher agree: the only
modelled divergence between the built regex and the glob reading is the
wildcard dot, and safe patterns contain none. -/
theorem globMatchF_eq_spec :
    ∀ (f : Nat) (pat s : Str), pat.all globSafeChar = true →
      globMatchF f pat s = specGlobMatchF f pat s := by
  intro f
  induction f with
  | zero => intro pat s _; rfl
  | succ f ih =>
    intro pat s hsafe
    cases pat with
    | nil => cases s <;> rfl
    | cons c ps =>
      rw [List.all_cons, Bool.and_eq_true] at hsafe
      have hdot : ¬ c = '.' := by
        intro h
        rw [h] at hsafe
        cases hsafe.1
      by_cases hstar : c = '*'
      · subst hstar
        cases s with
        | nil =>
          simp only [globMatchF, specGlobMatchF]
          rw [ih ps [] hsafe.2]
        | cons d s' =>
          simp only [globMatchF, specGlobMatchF]
          rw [ih ps (d :: s') hsafe.2,
            ih ('*' :: ps) s' (by simp [List.all_cons, hsafe.2, hsafe.1])]
      · by_cases hq : c = '?'
        · subst hq
          cases s with
          | nil => rfl
          | cons d s' =>
            simp only [globMatchF, specGlobMatchF]
            exact ih ps s' hsafe.2
        · cases s with
          | nil =>
            rw [globMatchF.eq_8 f c ps (fun h => hstar h),
              specGlobMatchF.eq_7 f c ps (fun h => hstar h)]
          | cons d s' =>
            rw [globMatchF.eq_9 f c ps d s' (fun h => hstar h) (fun h => hq h)
                (fun h => hdot h),
              specGlobMatchF.eq_8 f c ps d s' (fun h => hstar h) (fun h => hq h),
              ih ps s' hsafe.2]

/-- Anchored version of `globMatchF_eq_spec`. -/
theorem matchesPattern_eq_spec (path pat : Str) (hsafe : pat.all globSafeChar = true) :
    matchesPattern path pat = matchesPatternSpec path pat :=
  globMatchF_eq_spec (pat.length + path.length + 1) pat path hsafe

/-- The empty string is a substring of every string. -/
theorem strContains_nil (s : Str) : strContains s [] = true := by
  cases s with
  | nil => rfl
  | cons c s' =>
    unfold strContains
    rw [show strStartsWith (c :: s') [] = true from rfl]
    simp

/-- Every resource matches the empty query. -/
theorem searchMatches_nil (r : DocResource) : searchMatches [] r = true := by
  unfold searchMatches
  rw [strContains_nil]
  simp

/-- The `goEndpoints` accumulation loop computes exactly the first-occurrence
deduplication (by raw key) of the valid-and-visible candidates, normalized. -/
theorem goEndpoints_eq_dedup (config : ResolvedConfig) :
    ∀ (parsed : List EndpointCandidate) (seen : List Str),
      goEndpoints config parsed seen =
        (dedupByKey seen (parsed.filter (acceptCandidate config))).map normalizeCandidate := by
  intro parsed
  induction parsed with
  | nil => intro seen; rfl
  | cons e rest ih =>
    intro seen
    by_cases hok : candidateOk e = true
    · by_cases hvis : isPathVisible (e.path.getD []) config.visibility = true
      · have hacc : acceptCandidate config e = true := by
          simp [acceptCandidate, hok, hvis]
        by_cases hseen : rawKey e ∈ seen
        · have hseen' : seen.contains (rawKey e) = true := List.elem_iff.mpr hseen
          simp [goEndpoints, hok, hvis, hseen, hseen', List.filter_cons, hacc, dedupByKey, ih]
        · have hseen' : seen.contains (rawKey e) = false := by
            rw [← Bool.not_eq_true, List.elem_iff]
            exact hseen
          simp [goEndpoints, hok, hvis, hseen, hseen', List.filter_cons, hacc, dedupByKey, ih]
      · have hacc : acceptCandidate config e = false := by
          simp [acceptCandidate, hvis]
        simp at hvis
        simp [goEndpoints, hok, hvis, List.filter_cons, hacc, ih]
    · have hacc : acceptCandidate config e = false := by
        simp [acceptCandidate, hok]
      simp at hok
      simp [goEndpoints, hok, List.filter_cons, hacc, ih]

/-- Every candidate kept by `dedupByKey` has a key outside `seen`. -/
theorem dedupByKey_not_seen :
    ∀ (l : List EndpointCandidate) (seen : List Str) (e : EndpointCandidate),
      e ∈ dedupByKey seen l → seen.contains (rawKey e) = false := by
  intro l
  induction l with
  | nil => intro seen e he; cases he
  | cons x rest ih =>
    intro seen e he
    by_cases hseen : seen.contains (rawKey x) = true
    · rw [dedupByKey, if_pos hseen] at he
      exact ih seen e he
    · have hseen' : seen.contains (rawKey x) = false := by
        rwa [← Bool.not_eq_true]
      rw [dedupByKey, if_neg (by rw [hseen']; exact Bool.false_ne_true)] at he
      cases he with
      | head => exact hseen'
      | tail _ htail =>
        have := ih (rawKey x :: seen) e htail
        simp only [List.contains_cons, Bool.or_eq_false_iff] at this
        exact this.2

/-- `dedupByKey` output has pairwise-distinct raw keys. -/
theorem dedupByKey_pairwise :
    ∀ (l : List EndpointCandidate) (seen : List Str),
      (dedupByKey seen l).Pairwise (fun a b => rawKey a ≠ rawKey b) := by
  intro l
  induction l with
  | nil => intro seen; exact List.Pairwise.nil
  | cons x rest ih =>
    intro seen
    by_cases hseen : seen.contains (rawKey x) = true
    · rw [dedupByKey, if_pos hseen]
      exact ih seen
    · simp at hseen
      rw [dedupByKey, if_neg (by simp [hseen])]
      refine List.Pairwise.cons ?_ (ih (rawKey x :: seen))
      intro b hb
      have := dedupByKey_not_seen rest (rawKey x :: seen) b hb
      simp only [List.contains_cons, Bool.or_eq_false_iff] at this
      intro hkey
      have h1 := this.1
      rw [hkey] at h1
      simp at h1


/- ## Lemma suite for normalizePath (claim C4) -/

/-- A non-empty word-character run at the head is the same as a word head. -/
theorem takeWhile_nonempty_iff (rest : Str) :
    (!(rest.takeWhile isWordChar).isEmpty) = headIsWord rest := by
  cases rest with
  | nil => rfl
  | cons d r =>
    rw [headIsWord]
    cases h : isWordChar d with
    | true => simp [List.takeWhile_cons, h]
    | false => simp [List.takeWhile_cons, h]

/-- `replaceColonParams` maps the empty string to itself. -/
theorem replaceColonParams_nil : replaceColonParams [] = [] := rfl

/-- `replaceColonParams` sends non-empty strings to non-empty strings. -/
theorem replaceColonParams_eq_nil_iff (s : Str) : replaceColonParams s = [] ↔ s = [] := by
  cases s with
  | nil => simp [replaceColonParams_nil]
  | cons c rest =>
    rw [replaceColonParams_cons]
    by_cases h : ((c == ':') && !(rest.takeWhile isWordChar).isEmpty) = true
    · rw [if_pos h]; simp
    · rw [if_neg h]; simp

/-- A leading slash is preserved by the colon-parameter rewrite. -/
theorem replaceColonParams_head_slash (t : Str) :
    replaceColonParams ('/' :: t) = '/' :: replaceColonParams t := by
  rw [replaceColonParams_cons]
  rw [if_neg (by simp)]

/-- If the rewrite's output starts with a word character, so did its input. -/
theorem headIsWord_replaceColonParams (s : Str)
    (h : headIsWord (replaceColonParams s) = true) : headIsWord s = true := by
  cases s with
  | nil => rw [replaceColonParams_nil] at h; cases h
  | cons c rest =>
    rw [replaceColonParams_cons] at h
    by_cases hc : ((c == ':') && !(rest.takeWhile isWordChar).isEmpty) = true
    · rw [if_pos hc] at h
      cases h
    · rw [if_neg hc] at h
      exact h

/-- Appending onto a match-free tail with colon-free characters stays
match-free. -/
theorem matchFree_append_no_colon :
    ∀ (a t : Str), (∀ c ∈ a, (c == ':') = false) → matchFree t = true →
      matchFree (a ++ t) = true := by
  intro a
  induction a with
  | nil => intro t _ ht; exact ht
  | cons c a' ih =>
    intro t h ht
    rw [List.cons_append, matchFree]
    have hc : (c == ':') = false := h c (List.mem_cons_self c a')
    rw [hc]
    simp only [Bool.false_and, Bool.not_false, Bool.true_and]
    exact ih t (fun d hd => h d (List.mem_cons_of_mem c hd)) ht

/-- The output of the colon-parameter rewrite is match-free. -/
theorem matchFree_replaceColonParams (s : Str) :
    matchFree (replaceColonParams s) = true := by
  have gen : ∀ (n : Nat) (s : Str), s.length ≤ n →
      matchFree (replaceColonParams s) = true := by
    intro n
    induction n with
    | zero =>
      intro s hs
      have : s = [] := List.length_eq_zero.mp (Nat.le_zero.mp hs)
      subst this
      rfl
    | succ n ih =>
      intro s hs
      cases s with
      | nil => rfl
      | cons c rest =>
        rw [replaceColonParams_cons]
        by_cases hc : ((c == ':') && !(rest.takeWhile isWordChar).isEmpty) = true
        · rw [if_pos hc]
          have hshape : '{' :: (rest.takeWhile isWordChar ++
              '}' :: replaceColonParams (rest.dropWhile isWordChar)) =
              ('{' :: (rest.takeWhile isWordChar ++ ['}'])) ++
                replaceColonParams (rest.dropWhile isWordChar) := by
            simp
          rw [hshape]
          refine matchFree_append_no_colon _ _ ?_ ?_
          · intro d hd
            cases hd with
            | head => rfl
            | tail _ hd' =>
              rcases List.mem_append.mp hd' with hw | hbrace
              · have hword := List.mem_takeWhile_imp hw
                cases hdeq : (d == ':') with
                | false => rfl
                | true =>
                  have : d = ':' := beq_iff_eq.mp hdeq
                  subst this
                  cases hword
              · have : d = '}' := by simpa using hbrace
                subst this
                rfl
          · exact ih (rest.dropWhile isWordChar)
              (le_trans (length_dropWhile_le isWordChar rest)
                (Nat.le_of_succ_le_succ hs))
        · rw [if_neg hc]
          rw [matchFree]
          have htail : matchFree (replaceColonParams rest) = true :=
            ih rest (Nat.le_of_succ_le_succ hs)
          rw [htail, Bool.and_true]
          rw [takeWhile_nonempty_iff] at hc
          cases hceq : (c == ':') with
          | false => simp
          | true =>
            have hrest : headIsWord rest = false := by
              cases hhw : headIsWord rest with
              | false => rfl
              | true => exact absurd (by simp [hceq, hhw]) hc
            have : headIsWord (replaceColonParams rest) = false := by
              cases hx : headIsWord (replaceColonParams rest) with
              | false => rfl
              | true =>
                rw [headIsWord_replaceColonParams rest hx] at hrest
                cases hrest
            rw [this]
            simp
  exact gen s.length s le_rfl

/-- Match-free strings are fixed points of the colon-parameter rewrite. -/
theorem replaceColonParams_of_matchFree :
    ∀ (s : Str), matchFree s = true → replaceColonParams s = s := by
  intro s
  induction s with
  | nil => intro _; rfl
  | cons c rest ih =>
    intro h
    rw [matchFree, Bool.and_eq_true] at h
    rw [replaceColonParams_cons]
    have hcond : ((c == ':') && !(rest.takeWhile isWordChar).isEmpty) = false := by
      rw [takeWhile_nonempty_iff]
      have := h.1
      cases hceq : (c == ':') with
      | false => rfl
      | true =>
        rw [hceq] at this
        simp only [Bool.true_and, Bool.not_eq_true'] at this
        rw [this]
        rfl
    rw [if_neg (by rw [hcond]; exact Bool.false_ne_true)]
    rw [ih h.2]

/-- If the rewrite's output ends in a slash, so did its input. -/
theorem replaceColonParams_getLast_slash (s : Str)
    (h : (replaceColonParams s).getLast? = some '/') : s.getLast? = some '/' := by
  have gen : ∀ (n : Nat) (s : Str), s.length ≤ n →
      (replaceColonParams s).getLast? = some '/' → s.getLast? = some '/' := by
    intro n
    induction n with
    | zero =>
      intro s hs h'
      have : s = [] := List.length_eq_zero.mp (Nat.le_zero.mp hs)
      subst this
      cases h'
    | succ n ih =>
      intro s hs h'
      cases s with
      | nil => cases h'
      | cons c rest =>
        rw [replaceColonParams_cons] at h'
        by_cases hc : ((c == ':') && !(rest.takeWhile isWordChar).isEmpty) = true
        · rw [if_pos hc] at h'
          by_cases hX : replaceColonParams (rest.dropWhile isWordChar) = []
          · rw [hX] at h'
            have : ('{' :: (rest.takeWhile isWordChar ++ ['}'])).getLast? = some '/' := h'
            rw [show ('{' :: (rest.takeWhile isWordChar ++ ['}'])) =
                ('{' :: rest.takeWhile isWordChar) ++ ['}'] by simp] at this
            rw [List.getLast?_concat] at this
            cases this
          · rw [show ('{' :: (rest.takeWhile isWordChar ++
                '}' :: replaceColonParams (rest.dropWhile isWordChar))) =
                ('{' :: rest.takeWhile isWordChar ++ ['}']) ++
                  replaceColonParams (rest.dropWhile isWordChar) by simp] at h'
            rw [List.getLast?_append_of_ne_nil _ hX] at h'
            have hdropLast : (rest.dropWhile isWordChar).getLast? = some '/' :=
              ih (rest.dropWhile isWordChar)
                (le_trans (length_dropWhile_le isWordChar rest)
                  (Nat.le_of_succ_le_succ hs)) h'
            have hdropne : rest.dropWhile isWordChar ≠ [] := by
              intro hdnil
              rw [hdnil] at hX
              exact hX rfl
            have hrest : rest.getLast? = some '/' := by
              rw [← List.takeWhile_append_dropWhile (p := isWordChar) (l := rest),
                List.getLast?_append_of_ne_nil _ hdropne]
              exact hdropLast
            have hrestne : rest ≠ [] := by
              intro hrnil
              rw [hrnil] at hdropne
              exact hdropne rfl
            rw [show (c :: rest) = [c] ++ rest by rfl,
              List.getLast?_append_of_ne_nil _ hrestne]
            exact hrest
        · rw [if_neg hc] at h'
          by_cases hX : replaceColonParams rest = []
          · have hrestnil : rest = [] := (replaceColonParams_eq_nil_iff rest).mp hX
            rw [hX] at h'
            have : c = '/' := by simpa using h'
            subst this
            rw [hrestnil]
            rfl
          · rw [show (c :: replaceColonParams rest) = [c] ++ replaceColonParams rest by rfl,
              List.getLast?_append_of_ne_nil _ hX] at h'
            have hrest : rest.getLast? = some '/' :=
              ih rest (Nat.le_of_succ_le_succ hs) h'
            have hrestne : rest ≠ [] := by
              intro hrnil
              rw [hrnil] at hX
              exact hX rfl
            rw [show (c :: rest) = [c] ++ rest by rfl,
              List.getLast?_append_of_ne_nil _ hrestne]
            exact hrest
  exact gen s.length s le_rfl h

/-- The leading-slash fixer always outputs a slash-headed string. -/
theorem ensureLeadingSlash_head (p : Str) : (ensureLeadingSlash p).head? = some '/' := by
  rw [ensureLeadingSlash]
  by_cases h : p.head? = some '/'
  · rw [if_pos h]; exact h
  · rw [if_neg h]; rfl

/-- The trailing-slash stripper keeps a leading slash. -/
theorem stripTrailingSlash_head (l : Str) (h : l.head? = some '/') :
    (stripTrailingSlash l).head? = some '/' := by
  rw [stripTrailingSlash]
  by_cases hc : l.length > 1 ∧ l.getLast? = some '/'
  · rw [if_pos hc]
    cases l with
    | nil => cases h
    | cons a t =>
      cases t with
      | nil => simp at hc
      | cons b t' =>
        rw [List.dropLast_cons₂]
        exact h
  · rw [if_neg hc]
    exact h

/-- A string whose last two characters are slashes has `//` as a suffix. -/
theorem double_slash_suffix (r : Str) (h1 : 1 < r.length) (h2 : r.getLast? = some '/')
    (h3 : r.dropLast.getLast? = some '/') : ['/', '/'] <:+ r := by
  have hne : r ≠ [] := by
    intro h
    rw [h] at h1
    cases h1
  have hdne : r.dropLast ≠ [] := by
    intro h
    have := congrArg List.length h
    rw [List.length_dropLast] at this
    simp at this
    omega
  have e1 : r.dropLast ++ [r.getLast hne] = r := List.dropLast_concat_getLast hne
  have e2 : r.dropLast.dropLast ++ [r.dropLast.getLast hdne] = r.dropLast :=
    List.dropLast_concat_getLast hdne
  have g1 : r.getLast hne = '/' := (List.getLast_eq_iff_getLast_eq_some hne).mpr h2
  have g2 : r.dropLast.getLast hdne = '/' := (List.getLast_eq_iff_getLast_eq_some hdne).mpr h3
  refine ⟨r.dropLast.dropLast, ?_⟩
  calc r.dropLast.dropLast ++ ['/', '/']
      = (r.dropLast.dropLast ++ ['/']) ++ ['/'] := by simp
    _ = (r.dropLast.dropLast ++ [(r.dropLast).getLast hdne]) ++ [r.getLast hne] := by
        rw [g1, g2]
    _ = r.dropLast ++ [r.getLast hne] := by rw [e2]
    _ = r := e1

/-- `ensureLeadingSlash` does not create a `//` suffix. -/
theorem ensureLeadingSlash_no_double_slash (p : Str) (h : ¬ ['/', '/'] <:+ p) :
    ¬ ['/', '/'] <:+ ensureLeadingSlash p := by
  rw [ensureLeadingSlash]
  by_cases hp : p.head? = some '/'
  · rw [if_pos hp]
    exact h
  · rw [if_neg hp]
    intro hsuf
    rcases List.suffix_cons_iff.mp hsuf with heq | htail
    · have : p = ['/'] := by
        injection heq with _ h2
        exact h2.symm
      rw [this] at hp
      exact hp rfl
    · exact h htail


/- ## Claim C6: path parameters and the required flag -/

/-- C6, counterexample: a source that explicitly marks a path parameter
`required: false` keeps `required: false` after normalization (`??` only
replaces a missing flag), so normalization does NOT make every path parameter
required. -/
theorem c6_counterexample :
    ¬ (∀ q ∈ normalizeParameters [pathParamNotRequired], q.required = some true) := by
  decide

/-- C6 (amended): parameter normalization defaults `required` to "is a path
parameter" only when the source supplied no flag; an explicitly supplied flag
(including `false` on a path parameter) is preserved; a missing type becomes
`"string"`. -/
theorem c6_parameters_normalization (params : List ParameterSchema) :
    List.Forall₂ (fun p q =>
        q.name = p.name ∧ q.paramIn = p.paramIn ∧
        (p.required = none → q.required = some (p.paramIn == "path".data)) ∧
        (∀ b, p.required = some b → q.required = some b) ∧
        (p.type = none → q.type = some "string".data))
      params (normalizeParameters params) := by
  induction params with
  | nil => simp [normalizeParameters]
  | cons p ps ih =>
    simp only [normalizeParameters, List.map_cons] at ih ⊢
    refine List.Forall₂.cons ⟨rfl, rfl, ?_, ?_, ?_⟩ ih
    · intro h; simp [h]
    · intro b hb; simp [hb]
    · intro h; simp [strOr, h]


/- ## Claim C7: response synthesis and description filling -/

/-- C7: an endpoint with an empty declared response list gets exactly one
synthesized `200 / "Successful response"`; a non-empty list keeps its
responses (status, content, headers), keeping every non-empty declared
description and filling missing ones from the fixed table. -/
theorem c7_responses_normalization :
    (∀ (e : EndpointCandidate), e.responses.getD [] = [] →
        (normalizeCandidate e).responses =
          [⟨.num 200, some "Successful response".data, none, none⟩]) ∧
    (∀ rs : List ResponseSchema, rs ≠ [] →
      List.Forall₂ (fun r q =>
          q.statusCode = r.statusCode ∧ q.content = r.content ∧ q.headers = r.headers ∧
          (∀ d, r.description = some d → d ≠ [] → q.description = some d) ∧
          (r.description = none →
            q.description = some (getDefaultResponseDescription r.statusCode)))
        rs (normalizeResponses rs)) := by
  constructor
  · intro e he
    simp [normalizeCandidate, normalizeResponses, he]
  · intro rs hrs
    have hne : rs.isEmpty = false := by
      cases rs with
      | nil => exact absurd rfl hrs
      | cons r rs' => rfl
    rw [normalizeResponses, hne]
    simp only [Bool.false_eq_true, if_false]
    clear hrs hne
    induction rs with
    | nil => simp
    | cons r rs' ih =>
      simp only [List.map_cons]
      refine List.Forall₂.cons ⟨rfl, rfl, rfl, ?_, ?_⟩ ih
      · intro d hd hdne
        simp [hd, strOr, hdne]
      · intro h
        simp [h, strOr]

/-- C7, witness: the synthesized response on a response-free candidate, and
the description fill on a bare declared 404. -/
theorem c7_witness :
    (normalizeCandidate emptyCandidate).responses =
        [⟨.num 200, some "Successful response".data, none, none⟩] ∧
      List.Forall₂ (fun r q =>
          q.statusCode = r.statusCode ∧ q.content = r.content ∧ q.headers = r.headers ∧
          (∀ d, r.description = some d → d ≠ [] → q.description = some d) ∧
          (r.description = none →
            q.description = some (getDefaultResponseDescription r.statusCode)))
        [bareNotFoundResponse] (normalizeResponses [bareNotFoundResponse]) :=
  ⟨c7_responses_normalization.1 emptyCandidate rfl,
   c7_responses_normalization.2 [bareNotFoundResponse] (by decide)⟩


/- ## Claim C8: source provenance type tag -/

/-- C8, counterexample: a single source that looks like neither family
(`notes.txt`) is tagged `openapi`, refuting "the structured-spec tag is used
iff every source identifier looks like a structured-spec file". -/
theorem c8_counterexample :
    ¬ (determineSourceType ["notes.txt".data] = SourceType.openapi ↔
        ∀ s ∈ ["notes.txt".data], isOpenApiSource s = true) := by
  decide

/-- C8 (amended): the tag is existential, not universal — `mixed` iff some
source looks spec-like AND some looks prose-like; `markdown` iff some looks
prose-like and none spec-like; `openapi` in every other case, i.e. exactly
when no source looks prose-like. -/
theorem c8_source_type (sources : List Str) :
    (determineSourceType sources = .mixed ↔
      (∃ s ∈ sources, isOpenApiSource s = true) ∧ ∃ s ∈ sources, isMarkdownSource s = true) ∧
    (determineSourceType sources = .markdown ↔
      (∃ s ∈ sources, isMarkdownSource s = true) ∧ ¬ ∃ s ∈ sources, isOpenApiSource s = true) ∧
    (determineSourceType sources = .openapi ↔
      ¬ ∃ s ∈ sources, isMarkdownSource s = true) := by
  have hiffA : sources.any isOpenApiSource = true ↔
      ∃ s ∈ sources, isOpenApiSource s = true := List.any_eq_true
  have hiffM : sources.any isMarkdownSource = true ↔
      ∃ s ∈ sources, isMarkdownSource s = true := List.any_eq_true
  rw [← hiffA, ← hiffM]
  cases hA : sources.any isOpenApiSource <;> cases hM : sources.any isMarkdownSource <;>
    simp [determineSourceType, hA, hM]


/- ## Claim C3: dispatch totality, unknown methods, caught failures -/

/-- C3: the dispatcher is a total function into structured responses: a
method outside the fixed table yields the `-32601` "Method not found" error,
a failure raised by the body is caught and becomes a `-32603` response
carrying the failure's message, and a structured body result is passed
through unchanged — no exception escapes. -/
theorem c3_dispatch_structured (req : JsonRpcRequest) (s : McpSession) :
    (req.method ∉ knownMethods →
      handleMcpRequest req s =
        (⟨req.id, none, some ⟨-32601, "Method not found: ".data ++ req.method⟩⟩, s)) ∧
    (∀ e, runMcpBody req s = .error e →
      handleMcpRequest req s = (⟨req.id, none, some ⟨-32603, e.message⟩⟩, s)) ∧
    (∀ r s', runMcpBody req s = .ok (r, s') → handleMcpRequest req s = (r, s')) := by
  refine ⟨?_, ?_, ?_⟩
  · intro h
    simp only [knownMethods, List.mem_cons, List.not_mem_nil, or_false, not_or] at h
    obtain ⟨h1, h2, h3, h4, h5, h6, h7, h8⟩ := h
    unfold handleMcpRequest runMcpBody
    rw [if_neg h1, if_neg h2, if_neg h3, if_neg h4, if_neg h5, if_neg h6, if_neg h7, if_neg h8]
  · intro e he
    unfold handleMcpRequest
    rw [he]
  · intro r s' h
    unfold handleMcpRequest
    rw [h]

/-- C3, witness: an unknown method gets the method-not-found error, and the
failure raised by `tools/call` with absent params is converted to a `-32603`
response with the failure's message. -/
theorem c3_witness :
    handleMcpRequest ⟨.num 7, "foo/bar".data, none⟩ emptySession =
        (⟨.num 7, none, some ⟨-32601, "Method not found: foo/bar".data⟩⟩, emptySession) ∧
    handleMcpRequest ⟨.num 8, "tools/call".data, none⟩ emptySession =
        (⟨.num 8, none, some ⟨-32603,
          "Cannot destructure property name of params as it is undefined.".data⟩⟩,
         emptySession) := by
  constructor
  · exact ((c3_dispatch_structured ⟨.num 7, "foo/bar".data, none⟩ emptySession).1
      (by decide)).trans (by decide)
  · exact ((c3_dispatch_structured ⟨.num 8, "tools/call".data, none⟩ emptySession).2.1
      ⟨"Cannot destructure property name of params as it is undefined.".data⟩ rfl)


/- ## Claim C5: visibility filtering -/

/-- C5, counterexample: the source builds an unescaped RegExp, so a dot in a
pattern matches ANY character: with exclude `a.c`, the path `abc` is
invisible in the code, while under the claim's glob semantics (only `*` and
`?` special, the dot literal) no exclude matches and the path would be
visible. -/
theorem c5_counterexample :
    isPathVisible "abc".data ⟨none, some ["a.c".data], false⟩ = false ∧
      isPathVisibleSpec "abc".data ⟨none, some ["a.c".data], false⟩ = true ∧
      matchesPattern "abc".data "a.c".data = true ∧
      matchesPatternSpec "abc".data "a.c".data = false := by
  decide

/-- C5 (amended): a path is visible iff no exclude pattern matches it and,
when a non-empty include list is configured, some include pattern matches it
(excludes take precedence) — where matching is the anchored test of the
RegExp built from the pattern with only `*`, `?`, `/` translated.  For
patterns free of regex metacharacters (`globSafeChar`: no dot, no unescaped
operator) that matching is exactly the claimed glob semantics — `*` any
character run, `?` any single character, everything else literal; patterns
containing such metacharacters keep their regex meaning (an invalid one such
as `[` throws), so the glob reading fails there.  The spec's example holds:
with include `/api/*` and exclude `/api/admin/*`, `/api/users` is visible
while `/api/admin/users` and `/other` are not. -/
theorem c5_visibility :
    (∀ (path : Str) (vis : VisibilityConfig),
      isPathVisible path vis = true ↔
        ((∀ pat ∈ vis.excludePats.getD [], matchesPattern path pat = false) ∧
         (∀ inc, vis.includePats = some inc → inc ≠ [] →
            ∃ pat ∈ inc, matchesPattern path pat = true))) ∧
    (∀ (path pat : Str), pat.all globSafeChar = true →
      matchesPattern path pat = matchesPatternSpec path pat) ∧
    isPathVisible "/api/users".data apiVisibility = true ∧
    isPathVisible "/api/admin/users".data apiVisibility = false ∧
    isPathVisible "/other".data apiVisibility = false := by
  refine ⟨?_, matchesPattern_eq_spec, by decide, by decide, by decide⟩
  intro path vis
  unfold isPathVisible
  cases hex : (vis.excludePats.getD []).any (fun pat => matchesPattern path pat) with
  | true =>
    rw [if_pos rfl]
    simp only [Bool.false_eq_true, false_iff, not_and]
    intro hexcl
    obtain ⟨pat, hmem, hmatch⟩ := List.any_eq_true.mp hex
    rw [hexcl pat hmem] at hmatch
    exact absurd hmatch (by simp)
  | false =>
    rw [if_neg (by simp : ¬ false = true)]
    simp only [List.any_eq_false] at hex
    have hexAll : ∀ pat ∈ vis.excludePats.getD [], matchesPattern path pat = false := by
      intro pat hmem
      have := hex pat hmem
      simpa using this
    cases hinc : vis.includePats with
    | none =>
      constructor
      · intro _
        exact ⟨hexAll, fun inc h => Option.noConfusion h⟩
      · intro _
        rfl
    | some inc =>
      show (if inc.length > 0 then inc.any fun pat => matchesPattern path pat else true) =
          true ↔ _
      by_cases hlen : 0 < inc.length
      · rw [if_pos hlen]
        constructor
        · intro hvis
          refine ⟨hexAll, ?_⟩
          intro inc' hinc' _
          cases hinc'
          exact List.any_eq_true.mp hvis
        · rintro ⟨-, hincP⟩
          exact List.any_eq_true.mpr (hincP inc rfl (List.length_pos.mp hlen))
      · rw [if_neg hlen]
        constructor
        · intro _
          refine ⟨hexAll, ?_⟩
          intro inc' hinc' hne
          cases hinc'
          exact absurd (List.length_pos.mpr hne) hlen
        · intro _
          rfl


/- ## Claim C10: empty search query matches everything -/

/-- C10, counterexample: on a schema with no resources, the empty-query
search yields the fixed "No results found" text, not the (empty)
concatenation of every resource's formatted content, refuting the claim for
every schema. -/
theorem c10_counterexample :
    handleToolsCall (.num 1) ⟨some "search_docs".data, none, none⟩ emptySession =
        ⟨.num 1, some (.textRes "No results found".data), none⟩ ∧
      joinSep "\n\n---\n\n".data (emptySession.schema.resources.map searchFormat) ≠
        "No results found".data := by
  decide

/-- C10 (amended): a missing or empty query is lower-cased to the empty
string, which is a substring of every resource name, so the search tool call
succeeds (never errors) and returns the concatenated formatted content of
every resource — except that a schema with zero resources gets the fixed
"No results found" text; meanwhile `tools/list` advertises `query` as
required. -/
theorem c10_empty_query_search (s : McpSession) (id : RpcId) (args : Option ToolArgs)
    (h : (args.bind ToolArgs.query).getD [] = []) :
    handleToolsCall id ⟨some "search_docs".data, args, none⟩ s =
      ⟨id, some (.textRes
        (if 0 < s.schema.resources.length then
          joinSep "\n\n---\n\n".data (s.schema.resources.map searchFormat)
        else "No results found".data)), none⟩ ∧
    searchTool.inputSchema.required = ["query".data] := by
  refine ⟨?_, rfl⟩
  unfold handleToolsCall
  simp only [h, beq_self_eq_true, if_true, lowerStr, List.map_nil]
  rw [List.filter_eq_self.mpr (fun r _ => searchMatches_nil r)]

/-- C10, witness: with the Button and Modal resources and a wholly missing
`arguments`, the search succeeds and returns both formatted resources. -/
theorem c10_witness :
    handleToolsCall (.num 2) ⟨some "search_docs".data, none, none⟩ searchSession =
      ⟨.num 2, some (.textRes (joinSep "\n\n---\n\n".data
        [searchFormat buttonResource, searchFormat modalResource])), none⟩ :=
  ((c10_empty_query_search searchSession (.num 2) none rfl).1).trans (by decide)


/-- A tool name derived from an endpoint whose path starts with `/` contains
two consecutive underscores, so it can never be the single-underscore name
`search_docs`. -/
theorem toolName_ne_search (e : Endpoint) (hp : e.path.head? = some '/') :
    toolName e ≠ "search_docs".data := by
  intro heq
  cases hpath : e.path with
  | nil => rw [hpath] at hp; cases hp
  | cons c t =>
    rw [hpath] at hp
    have hc : c = '/' := by
      simpa using hp
    subst hc
    rw [toolName, hpath] at heq
    have hrepl : (('/' :: t).map (fun c => if c.isAlphanum then c else '_')) =
        '_' :: t.map (fun c => if c.isAlphanum then c else '_') := by
      simp
    rw [hrepl] at heq
    have hinf : ['_', '_'] <:+: "search_docs".data :=
      ⟨lowerStr e.method, t.map (fun c => if c.isAlphanum then c else '_'), by
        rw [List.append_assoc]; exact heq⟩
    exact absurd hinf (by decide)


/- ## Claim C1: endpoint deduplication -/

/-- C1, counterexample: the candidates `GET /users` and `get /users`
normalize to the same (method, path), but their RAW keys differ, so both
survive — the output list holds two endpoints with an identical normalized
(method, path) pair. -/
theorem c1_counterexample :
    (normalizeEndpoints [candUpperGet, candLowerGet] plainConfig).map
        (fun e => (e.method, e.path)) =
        [("GET".data, "/users".data), ("GET".data, "/users".data)] ∧
      ¬ (normalizeEndpoints [candUpperGet, candLowerGet] plainConfig).Pairwise
        (fun a b => ¬(a.method = b.method ∧ a.path = b.path)) := by
  decide

/-- C1 (amended): deduplication is first-occurrence-wins on the RAW
`` `${method}:${path}` `` key of each candidate, applied before
normalization: the normalized list is exactly the stable sort of the
normalized first-occurrence dedup of the valid-and-visible candidates, and
those kept candidates have pairwise-distinct raw keys.  Candidates whose raw
pairs differ but normalize to the same (method, path) all survive. -/
theorem c1_dedup_first_wins (config : ResolvedConfig) (parsed : List EndpointCandidate) :
    normalizeEndpoints parsed config =
        sortEndpoints ((dedupByKey [] (parsed.filter (acceptCandidate config))).map
          normalizeCandidate) ∧
      (dedupByKey [] (parsed.filter (acceptCandidate config))).Pairwise
        (fun a b => rawKey a ≠ rawKey b) :=
  ⟨by rw [normalizeEndpoints, goEndpoints_eq_dedup], dedupByKey_pairwise _ _⟩


/- ## Claim C2: tools/list to tools/call round trip -/

/-- C2, counterexample: the normalized endpoints `GET /a_b` and `GET /a-b`
derive the same tool name `get__a_b`, and `tools/call` resolves a name to the
FIRST matching endpoint.  The program's `localeCompare` sort puts `/a_b`
before `/a-b` (ICU collation orders the connector `_` before the dash), so in
the program's schema the call on the name listed for `GET /a-b` returns
`GET /a_b`'s documentation.  Both possible orders are covered below —
whichever endpoint the sort puts second, the call on its listed name returns
the other endpoint's documentation — so the refutation does not depend on
the collation. -/
theorem c2_counterexample :
    [underscoreEndpoint, dashEndpoint].map toolName =
        ["get__a_b".data, "get__a_b".data] ∧
      handleToolsCall (.num 1) ⟨some (toolName dashEndpoint), none, none⟩
          collideSessionUnderFirst ≠
        ⟨.num 1, some (.textRes (formatEndpointDocs dashEndpoint)), none⟩ ∧
      handleToolsCall (.num 1) ⟨some (toolName underscoreEndpoint), none, none⟩
          collideSessionDashFirst ≠
        ⟨.num 1, some (.textRes (formatEndpointDocs underscoreEndpoint)), none⟩ := by
  decide

/-- C2 (amended): for every endpoint of the schema whose path starts with `/`
(true of every normalized path), calling the tool name that `tools/list`
derives for it never yields the "Unknown tool" error: it returns the
formatted documentation of the FIRST endpoint carrying that derived name —
which is the endpoint itself whenever no other endpoint shares the name. -/
theorem c2_tool_roundtrip (s : McpSession) (e : Endpoint) (id : RpcId)
    (he : e ∈ s.schema.endpoints) (hp : e.path.head? = some '/') :
    ∃ e', e' ∈ s.schema.endpoints ∧ toolName e' = toolName e ∧
      handleToolsCall id ⟨some (toolName e), none, none⟩ s =
        ⟨id, some (.textRes (formatEndpointDocs e')), none⟩ ∧
      ((∀ x ∈ s.schema.endpoints, toolName x = toolName e → x = e) → e' = e) := by
  have hne : toolName e ≠ "search_docs".data := toolName_ne_search e hp
  have hcond : ((some (toolName e) == some "search_docs".data) : Bool) = false := by
    simp [hne]
  have hex : ∃ x ∈ s.schema.endpoints, (toolName x == toolName e) = true :=
    ⟨e, he, by simp⟩
  have hsome : (s.schema.endpoints.find? (fun x => toolName x == toolName e)).isSome := by
    rw [List.find?_isSome]
    exact hex
  cases hfind : s.schema.endpoints.find? (fun x => toolName x == toolName e) with
  | none => rw [hfind] at hsome; cases hsome
  | some e' =>
    have hmem : e' ∈ s.schema.endpoints := List.mem_of_find?_eq_some hfind
    have hname : toolName e' = toolName e := by
      have := List.find?_some hfind
      simpa using this
    refine ⟨e', hmem, hname, ?_, ?_⟩
    · unfold handleToolsCall
      rw [hcond]
      simp only [Bool.false_eq_true, if_false]
      rw [hfind]
    · intro huniq
      exact huniq e' hmem hname

/-- C2, witness: on the one-endpoint schema the listed name resolves back to
exactly that endpoint's documentation. -/
theorem c2_witness :
    handleToolsCall (.num 1) ⟨some (toolName soloEndpoint), none, none⟩ soloSession =
      ⟨.num 1, some (.textRes (formatEndpointDocs soloEndpoint)), none⟩ := by
  obtain ⟨e', -, -, hresp, huniq⟩ :=
    c2_tool_roundtrip soloSession soloEndpoint (.num 1) (by decide) (by decide)
  rw [huniq (by decide)] at hresp
  exact hresp


/- ## Order lemmas for the string sort -/

theorem strLt_asymm : ∀ a b : Str, strLt a b = true → strLt b a = false := by
  intro a
  induction a with
  | nil =>
    intro b h
    cases b with
    | nil => cases h
    | cons d b' => rfl
  | cons c a' ih =>
    intro b h
    cases b with
    | nil => cases h
    | cons d b' =>
      rw [strLt] at h ⊢
      by_cases h1 : c < d
      · rw [if_neg (asymm h1), if_pos h1]
      · rw [if_neg h1] at h
        by_cases h2 : d < c
        · rw [if_pos h2] at h; cases h
        · rw [if_neg h2] at h
          rw [if_neg h2, if_neg h1]
          exact ih b' h

theorem strLt_trans : ∀ a b c : Str, strLt a b = true → strLt b c = true → strLt a c = true := by
  intro a
  induction a with
  | nil =>
    intro b c hab hbc
    cases b with
    | nil => cases hab
    | cons d b' =>
      cases c with
      | nil => cases hbc
      | cons g c' => rfl
  | cons x a' ih =>
    intro b c hab hbc
    cases b with
    | nil => cases hab
    | cons y b' =>
      cases c with
      | nil => cases hbc
      | cons z c' =>
        rw [strLt] at hab hbc ⊢
        by_cases hxy : x < y
        · by_cases hyz : y < z
          · rw [if_pos (lt_trans hxy hyz)]
          · rw [if_neg hyz] at hbc
            by_cases hzy : z < y
            · rw [if_pos hzy] at hbc; cases hbc
            · have hyze : y = z := le_antisymm (not_lt.mp hzy) (not_lt.mp hyz)
              rw [if_pos (hyze ▸ hxy)]
        · rw [if_neg hxy] at hab
          by_cases hyx : y < x
          · rw [if_pos hyx] at hab; cases hab
          · rw [if_neg hyx] at hab
            have hxye : x = y := le_antisymm (not_lt.mp hyx) (not_lt.mp hxy)
            subst hxye
            by_cases hyz : x < z
            · rw [if_pos hyz]
            · rw [if_neg hyz] at hbc ⊢
              by_cases hzy : z < x
              · rw [if_pos hzy] at hbc; cases hbc
              · rw [if_neg hzy] at hbc ⊢
                exact ih b' c' hab hbc

theorem strLt_conn : ∀ a b : Str, strLt a b = false → strLt b a = false → a = b := by
  intro a
  induction a with
  | nil =>
    intro b hab _
    cases b with
    | nil => rfl
    | cons d b' => cases hab
  | cons c a' ih =>
    intro b hab hba
    cases b with
    | nil => cases hba
    | cons d b' =>
      rw [strLt] at hab hba
      by_cases h1 : c < d
      · rw [if_pos h1] at hab; cases hab
      · rw [if_neg h1] at hab
        by_cases h2 : d < c
        · rw [if_pos h2] at hba; cases hba
        · rw [if_neg h2] at hab
          rw [if_neg h2, if_neg h1] at hba
          have : c = d := le_antisymm (not_lt.mp h2) (not_lt.mp h1)
          rw [this, ih b' hab hba]

/-- Inserting into the string sort permutes a cons. -/
theorem insertSortedStr_perm (a : Str) :
    ∀ l : List Str, List.Perm (insertSortedStr a l) (a :: l) := by
  intro l
  induction l with
  | nil => rfl
  | cons b l' ih =>
    rw [insertSortedStr]
    by_cases h : strLt a b = true
    · rw [if_pos h]
    · rw [if_neg h]
      exact (List.Perm.cons b ih).trans (List.Perm.swap a b l')

/-- The string sort permutes its input (fold form). -/
theorem sortStrs_foldl_perm :
    ∀ (l acc : List Str),
      List.Perm (l.foldl (fun acc s => insertSortedStr s acc) acc) (acc ++ l) := by
  intro l
  induction l with
  | nil => intro acc; simp
  | cons a l' ih =>
    intro acc
    rw [List.foldl_cons]
    refine (ih (insertSortedStr a acc)).trans ?_
    refine (List.Perm.append_right l' (insertSortedStr_perm a acc)).trans ?_
    exact List.perm_middle.symm.trans (by simp)

/-- The string sort permutes its input. -/
theorem sortStrs_perm (l : List Str) : List.Perm (sortStrs l) l := by
  have := sortStrs_foldl_perm l []
  simpa [sortStrs] using this

/-- Sortedness (non-decreasing under `strLt`) is preserved by insertion. -/
theorem insertSortedStr_pairwise (a : Str) :
    ∀ l : List Str, l.Pairwise (fun x y => strLt y x = false) →
      (insertSortedStr a l).Pairwise (fun x y => strLt y x = false) := by
  intro l
  induction l with
  | nil => intro _; simp [insertSortedStr]
  | cons b l' ih =>
    intro h
    rw [List.pairwise_cons] at h
    rw [insertSortedStr]
    by_cases hab : strLt a b = true
    · rw [if_pos hab]
      refine List.Pairwise.cons ?_ (List.Pairwise.cons h.1 h.2)
      intro x hx
      cases hx with
      | head => exact strLt_asymm a b hab
      | tail _ hx' =>
        by_contra hxa
        have hxa' : strLt x a = true := by
          cases hcase : strLt x a with
          | true => rfl
          | false => exact absurd hcase hxa
        have hxb : strLt x b = true := strLt_trans x a b hxa' hab
        rw [h.1 x hx'] at hxb
        cases hxb
    · rw [if_neg hab]
      refine List.Pairwise.cons ?_ (ih h.2)
      intro x hx
      have hx' := List.mem_cons.mp ((insertSortedStr_perm a l').mem_iff.mp hx)
      cases hx' with
      | inl hxa =>
        subst hxa
        cases hcase : strLt x b with
        | false => rfl
        | true => exact absurd hcase hab
      | inr hxl => exact h.1 x hxl

/-- `sortStrs` returns a non-decreasing list. -/
theorem sortStrs_pairwise (l : List Str) :
    (sortStrs l).Pairwise (fun x y => strLt y x = false) := by
  have gen : ∀ (l acc : List Str), acc.Pairwise (fun x y => strLt y x = false) →
      (l.foldl (fun acc s => insertSortedStr s acc) acc).Pairwise
        (fun x y => strLt y x = false) := by
    intro l
    induction l with
    | nil => intro acc h; exact h
    | cons a l' ih =>
      intro acc h
      rw [List.foldl_cons]
      exact ih (insertSortedStr a acc) (insertSortedStr_pairwise a acc h)
  exact gen l [] List.Pairwise.nil

/-- The `Set`-style tag accumulation: membership. -/
theorem snocDedup_mem :
    ∀ (ts acc : List Str) (t : Str),
      t ∈ ts.foldl (fun acc2 u => if acc2.contains u then acc2 else acc2 ++ [u]) acc ↔
        t ∈ acc ∨ t ∈ ts := by
  intro ts
  induction ts with
  | nil => intro acc t; simp
  | cons u ts' ih =>
    intro acc t
    rw [List.foldl_cons, ih]
    have hstep : t ∈ (if acc.contains u then acc else acc ++ [u]) ↔ t ∈ acc ∨ t = u := by
      by_cases hc : acc.contains u = true
      · rw [if_pos hc]
        have hu : u ∈ acc := List.elem_iff.mp hc
        constructor
        · intro h; exact Or.inl h
        · intro h
          cases h with
          | inl h => exact h
          | inr h => exact h ▸ hu
      · rw [if_neg hc]
        simp
    rw [hstep]
    simp [or_assoc]

/-- The `Set`-style tag accumulation: no duplicates. -/
theorem snocDedup_nodup :
    ∀ (ts acc : List Str), acc.Nodup →
      (ts.foldl (fun acc2 u => if acc2.contains u then acc2 else acc2 ++ [u]) acc).Nodup := by
  intro ts
  induction ts with
  | nil => intro acc h; exact h
  | cons u ts' ih =>
    intro acc h
    rw [List.foldl_cons]
    refine ih _ ?_
    by_cases hc : acc.contains u = true
    · rw [if_pos hc]; exact h
    · rw [if_neg hc]
      have hu : u ∉ acc := by
        intro hmem
        exact hc (List.elem_iff.mpr hmem)
      simp [List.nodup_append, h, hu]

/-- Tag collection over all endpoints: membership. -/
theorem collectTags_mem (endpoints : List Endpoint) (t : Str) :
    t ∈ collectTags endpoints ↔ ∃ e ∈ endpoints, t ∈ e.tags := by
  have gen : ∀ (eps : List Endpoint) (acc : List Str),
      t ∈ eps.foldl
          (fun acc e => e.tags.foldl
            (fun acc2 u => if acc2.contains u then acc2 else acc2 ++ [u]) acc) acc ↔
        t ∈ acc ∨ ∃ e ∈ eps, t ∈ e.tags := by
    intro eps
    induction eps with
    | nil => intro acc; simp
    | cons e eps' ih =>
      intro acc
      rw [List.foldl_cons, ih, snocDedup_mem]
      simp [or_assoc]
  rw [collectTags, gen]
  simp

/-- Tag collection over all endpoints: no duplicates. -/
theorem collectTags_nodup (endpoints : List Endpoint) : (collectTags endpoints).Nodup := by
  have gen : ∀ (eps : List Endpoint) (acc : List Str), acc.Nodup →
      (eps.foldl
        (fun acc e => e.tags.foldl
          (fun acc2 u => if acc2.contains u then acc2 else acc2 ++ [u]) acc) acc).Nodup := by
    intro eps
    induction eps with
    | nil => intro acc h; exact h
    | cons e eps' ih =>
      intro acc h
      rw [List.foldl_cons]
      exact ih _ (snocDedup_nodup e.tags acc h)
  exact gen endpoints [] List.nodup_nil

/-- Membership characterization of `filterEndpoints`. -/
theorem filterEndpoints_mem (endpoints : List Endpoint) (q : EndpointsQuery) (e : Endpoint) :
    e ∈ filterEndpoints endpoints q ↔
      e ∈ endpoints ∧
        (strTruthy q.tag = true → q.tag.getD [] ∈ e.tags) ∧
        (strTruthy q.method = true → upperStr e.method = upperStr (q.method.getD [])) ∧
        (strTruthy q.path = true → strContains e.path (q.path.getD []) = true) ∧
        (∀ d, q.deprecated = some d → e.deprecated = d) := by
  rw [filterEndpoints, List.mem_filter]
  refine and_congr_right fun _ => ?_
  simp only [Bool.and_eq_true, Bool.or_eq_true, Bool.not_eq_true']
  have h1 : (strTruthy q.tag = false ∨ e.tags.contains (q.tag.getD []) = true) ↔
      (strTruthy q.tag = true → q.tag.getD [] ∈ e.tags) := by
    constructor
    · intro h ht
      cases h with
      | inl h => rw [h] at ht; cases ht
      | inr h => exact List.elem_iff.mp h
    · intro h
      cases hc : strTruthy q.tag with
      | false => exact Or.inl rfl
      | true => exact Or.inr (List.elem_iff.mpr (h hc))
  have h2 : (strTruthy q.method = false ∨
        (upperStr e.method == upperStr (q.method.getD [])) = true) ↔
      (strTruthy q.method = true → upperStr e.method = upperStr (q.method.getD [])) := by
    constructor
    · intro h ht
      cases h with
      | inl h => rw [h] at ht; cases ht
      | inr h => exact beq_iff_eq.mp h
    · intro h
      cases hc : strTruthy q.method with
      | false => exact Or.inl rfl
      | true => exact Or.inr (beq_iff_eq.mpr (h hc))
  have h3 : (strTruthy q.path = false ∨ strContains e.path (q.path.getD []) = true) ↔
      (strTruthy q.path = true → strContains e.path (q.path.getD []) = true) := by
    constructor
    · intro h ht
      cases h with
      | inl h => rw [h] at ht; cases ht
      | inr h => exact h
    · intro h
      cases hc : strTruthy q.path with
      | false => exact Or.inl rfl
      | true => exact Or.inr (h hc)
  have h4 : (match q.deprecated with
        | none => true
        | some d => e.deprecated == d) = true ↔
      (∀ d, q.deprecated = some d → e.deprecated = d) := by
    cases hq : q.deprecated with
    | none => simp
    | some d => simp [beq_iff_eq]
  rw [h1, h2, h3, h4]
  simp [and_assoc]


/- ## Claim C4: path normalization idempotence -/

/-- C4, counterexample: `normalizePath` strips only ONE trailing slash per
application, so on `/a//` it returns `/a/` — an output of the normalizer —
and a second application still changes it.  Idempotence fails. -/
theorem c4_counterexample :
    normalizePath "/a//".data = "/a/".data ∧
      normalizePath (normalizePath "/a//".data) ≠ normalizePath "/a//".data := by
  decide

/-- C4 (amended): `normalizePath` is idempotent on every input that does not
end in two slashes (only one trailing slash is stripped per application, so
inputs ending in `//` still end in `/` after one pass); the three example
mappings hold as stated. -/
theorem c4_normalizePath_idem :
    (∀ p : Str, ¬ ['/', '/'] <:+ p → normalizePath (normalizePath p) = normalizePath p) ∧
      normalizePath "/users/:id".data = "/users/{id}".data ∧
      normalizePath "users/".data = "/users".data ∧
      normalizePath "/".data = "/".data := by
  refine ⟨?_, by decide, by decide, by decide⟩
  intro p hp
  have hr_head : (ensureLeadingSlash p).head? = some '/' := ensureLeadingSlash_head p
  have hu_head : (stripTrailingSlash (ensureLeadingSlash p)).head? = some '/' :=
    stripTrailingSlash_head _ hr_head
  have hrn : ¬ ['/', '/'] <:+ ensureLeadingSlash p := ensureLeadingSlash_no_double_slash p hp
  -- the stripped string either is the root or does not end in a slash
  have key : stripTrailingSlash (ensureLeadingSlash p) = ['/'] ∨
      (stripTrailingSlash (ensureLeadingSlash p)).getLast? ≠ some '/' := by
    rw [stripTrailingSlash]
    by_cases hc : (ensureLeadingSlash p).length > 1 ∧
        (ensureLeadingSlash p).getLast? = some '/'
    · rw [if_pos hc]
      by_cases hlast : (ensureLeadingSlash p).dropLast.getLast? = some '/'
      · exact absurd (double_slash_suffix _ hc.1 hc.2 hlast) hrn
      · exact Or.inr hlast
    · rw [if_neg hc]
      by_cases hlast : (ensureLeadingSlash p).getLast? = some '/'
      · left
        have hlen : ¬ (ensureLeadingSlash p).length > 1 := fun h => hc ⟨h, hlast⟩
        cases hE : ensureLeadingSlash p with
        | nil => rw [hE] at hr_head; cases hr_head
        | cons a t =>
          cases t with
          | nil =>
            rw [hE] at hr_head
            have : a = '/' := by simpa using hr_head
            rw [this]
          | cons b t' =>
            rw [hE] at hlen
            simp at hlen
      · exact Or.inr hlast
  -- normalizePath p starts with a slash
  have hq_head : (normalizePath p).head? = some '/' := by
    rw [normalizePath]
    cases hu : stripTrailingSlash (ensureLeadingSlash p) with
    | nil => rw [hu] at hu_head; cases hu_head
    | cons a t =>
      rw [hu] at hu_head
      have : a = '/' := by simpa using hu_head
      subst this
      rw [replaceColonParams_head_slash]
      rfl
  -- normalizePath p either is the root or does not end in a slash
  have hq_last : normalizePath p = ['/'] ∨ (normalizePath p).getLast? ≠ some '/' := by
    cases key with
    | inl hroot =>
      left
      rw [normalizePath, hroot]
      decide
    | inr hlast =>
      right
      intro hq
      exact hlast (replaceColonParams_getLast_slash _ hq)
  -- second application is the identity on the first one's output
  rw [show normalizePath (normalizePath p) =
      replaceColonParams (stripTrailingSlash (ensureLeadingSlash (normalizePath p)))
    from rfl]
  have hens : ensureLeadingSlash (normalizePath p) = normalizePath p := by
    rw [ensureLeadingSlash, if_pos hq_head]
  rw [hens]
  have hstrip : stripTrailingSlash (normalizePath p) = normalizePath p := by
    rw [stripTrailingSlash]
    cases hq_last with
    | inl hroot =>
      rw [if_neg]
      rw [hroot]
      intro hcontra
      simp at hcontra
    | inr hlast =>
      rw [if_neg]
      intro hcontra
      exact hlast hcontra.2
  rw [hstrip]
  exact replaceColonParams_of_matchFree _ (matchFree_replaceColonParams _)

/-- C4, witness: the general idempotence statement applied to the concrete
path `/users/:id`. -/
theorem c4_witness :
    normalizePath (normalizePath "/users/:id".data) = normalizePath "/users/:id".data :=
  c4_normalizePath_idem.1 "/users/:id".data (by decide)


/- ## Claim C9: endpoints listing filters -/

/-- C9, counterexample: the schema's only endpoint carries the tag `users`,
and the query tag `user` is a substring of it, yet the endpoint is filtered
out — the tag filter is exact membership, not substring matching. -/
theorem c9_counterexample :
    (handleEndpoints taggedSchema (some tagQuery)).endpoints = [] ∧
      strContains "users".data "user".data = true ∧
      taggedSchema.endpoints.map Endpoint.tags = [["users".data]] := by
  decide

/-- C9 (amended): the endpoints operation returns exactly the endpoints
passing all supplied filters, where the tag filter is EXACT membership of the
query tag in the endpoint's tag list (not substring matching), the method
filter is case-insensitive, the path filter is substring matching and the
deprecated filter is equality; the count equals the returned list's length,
and the tag set is collected from all endpoints of the schema, duplicate-free
and sorted. -/
theorem c9_endpoints_listing (schema : NormalizedSchema) (q : EndpointsQuery) :
    (∀ e, e ∈ (handleEndpoints schema (some q)).endpoints ↔
        e ∈ schema.endpoints ∧
          (strTruthy q.tag = true → q.tag.getD [] ∈ e.tags) ∧
          (strTruthy q.method = true → upperStr e.method = upperStr (q.method.getD [])) ∧
          (strTruthy q.path = true → strContains e.path (q.path.getD []) = true) ∧
          (∀ d, q.deprecated = some d → e.deprecated = d)) ∧
      (handleEndpoints schema (some q)).count =
        (handleEndpoints schema (some q)).endpoints.length ∧
      (∀ t, t ∈ (handleEndpoints schema (some q)).tags ↔ ∃ e ∈ schema.endpoints, t ∈ e.tags) ∧
      (handleEndpoints schema (some q)).tags.Nodup ∧
      (handleEndpoints schema (some q)).tags.Pairwise (fun a b => strLt b a = false) := by
  refine ⟨?_, rfl, ?_, ?_, ?_⟩
  · intro e
    exact filterEndpoints_mem schema.endpoints q e
  · intro t
    rw [show (handleEndpoints schema (some q)).tags = sortStrs (collectTags schema.endpoints)
      from rfl]
    rw [(sortStrs_perm (collectTags schema.endpoints)).mem_iff]
    exact collectTags_mem schema.endpoints t
  · exact ((sortStrs_perm (collectTags schema.endpoints)).nodup_iff).mpr
      (collectTags_nodup schema.endpoints)
  · exact sortStrs_pairwise (collectTags schema.endpoints)

end DocMcp
